import Mathlib

/-!
Shallow embedding of `traffic_components.py` (city_traffic_model).

The Python program mutates a heap of `Intersection`, `Street` and `Car`
objects.  We embed it as explicit state passing over arenas indexed by
natural-number identifiers: intersection ids index `outs`/`ins`, street ids
index `sdata`/`queues`, car ids index `paths`/`locs`.  Python exceptions are
modelled by an error type; operations that mutate return
`Except (Err × S) S` where an error carries the state at the moment the
exception is raised, so that absence of partial mutation is provable.

Error-name correspondence between the source and the natural-language spec:
  DisconnectedPathError  = ConnectivityError
  NotAtFrontOfQueueError = OrderingError
  CannotCutStreetError   = RemovalConflictError
  LatticeDimensionsError = GeometryError
-/

/-- The exception taxonomy of the source, plus one constructor for untyped
Python exceptions (ValueError, IndexError, KeyError, blocking `Queue.get`)
that the source can hit outside its documented contract. -/
inductive Err where
  | disconnectedPath
  | notAtFrontOfQueue
  | cannotCutStreet
  | latticeDimensions
  | pythonError
deriving DecidableEq, Repr

/-- The per-street record: `Street.tail`, `Street.head`, `Street.weight`
(weights are the naturals; the spec restricts the model to non-negative
weights and every weight in the repository is a natural number). -/
structure StreetD where
  tail : Nat
  head : Nat
  weight : Nat
deriving DecidableEq, Repr

/-- The whole mutable heap of the program.
`outs`/`ins` are the `outstreets`/`instreets` lists of each intersection
(indexed by intersection id), `sdata` the street arena (indexed by street
id), `queues` the FIFO queue of each street (front first, car ids),
`paths`/`locs` the `path` and `location` fields of each car (indexed by car
id), and `inters`/`streets`/`cars` the three collections of the
`StreetNetwork` object. -/
structure S where
  inters : List Nat
  streets : List Nat
  cars : List Nat
  outs : List (List Nat)
  ins : List (List Nat)
  sdata : List StreetD
  queues : List (List Nat)
  paths : List (List Nat)
  locs : List (Option Nat)
deriving DecidableEq, Repr

/-- `Street.__init__` (source lines 217-226): allocate a fresh street with
the next street id, give it an empty queue, and register it at the end of
`tail.outstreets` and `head.instreets`.  It does not touch the network
street collection (the callers do that). -/
def newStreet (s : S) (tail head weight : Nat) : S :=
  let sid := s.sdata.length
  { s with
    sdata := s.sdata ++ [⟨tail, head, weight⟩]
    queues := s.queues ++ [[]]
    outs := s.outs.set tail (s.outs.getD tail [] ++ [sid])
    ins := s.ins.set head (s.ins.getD head [] ++ [sid]) }

/-- `Car.__init__` (source lines 245-251): the location becomes `path[0]`,
the car enqueues itself at the back of that street, and appends itself to
`network.cars`.  Python raises an IndexError on an empty path, hence the
nonemptiness hypothesis. -/
def newCar (s : S) (path : List Nat) (h : path ≠ []) : S :=
  let cid := s.paths.length
  let first := path.head h
  { s with
    paths := s.paths ++ [path]
    locs := s.locs ++ [some first]
    queues := s.queues.set first (s.queues.getD first [] ++ [cid])
    cars := s.cars ++ [cid] }

/-- Truthiness of the expression `street.q.empty` in the source (line 130):
`empty` is referenced without being called, so the tested value is a
bound-method object, which is truthy in Python regardless of the queue
contents. -/
def emptyMethodObjectIsTruthy : Bool := true

/-- `StreetNetwork.cut_street` (source lines 127-137).  The guard
`if not street.q.empty:` negates the truthy method object and is therefore
never taken; the three removals then run unconditionally.  `list.remove`
removes the first occurrence and raises ValueError when the element is
absent; each error carries the state at the moment it is raised. -/
def cut_street (s : S) (street : Nat) : Except (Err × S) S :=
  if !emptyMethodObjectIsTruthy then .error (.cannotCutStreet, s)
  else if street ∈ s.streets then
    let s1 := { s with streets := s.streets.erase street }
    let tl := (s1.sdata.getD street ⟨0, 0, 0⟩).tail
    let hd := (s1.sdata.getD street ⟨0, 0, 0⟩).head
    if street ∈ s1.outs.getD tl [] then
      let s2 := { s1 with outs := s1.outs.set tl ((s1.outs.getD tl []).erase street) }
      if street ∈ s2.ins.getD hd [] then
        .ok { s2 with ins := s2.ins.set hd ((s2.ins.getD hd []).erase street) }
      else .error (.pythonError, s2)
    else .error (.pythonError, s1)
  else .error (.pythonError, s)

/-- `Car.move` (source lines 253-282) for the car with id `c`.
Python evaluates `self.path.index(self.location)` first (ValueError when
the location is not in the path, AttributeError when the location is the
None sentinel); `list.index` returns the index of the FIRST occurrence.
In the arrival branch `Queue.get` pops the front element of the queue,
whoever it is, without any check; on an empty queue it would block forever
(modelled as `pythonError`).  In the stepping branch the connectivity check
precedes the front-of-queue check, and only then are the two queues and the
location updated, in source order. -/
def move (s : S) (c : Nat) : Except (Err × S) S :=
  match s.locs.getD c none with
  | none => .error (.pythonError, s)
  | some loc =>
    let path := s.paths.getD c []
    if loc ∈ path then
      let index := path.indexOf loc + 1
      if path.length ≤ index then
        match s.queues.getD loc [] with
        | [] => .error (.pythonError, s)
        | _ :: rest =>
          let s1 := { s with queues := s.queues.set loc rest }
          let s2 := { s1 with locs := s1.locs.set c none }
          if c ∈ s2.cars then .ok { s2 with cars := s2.cars.erase c }
          else .error (.pythonError, s2)
      else
        let next := path.getD index 0
        let hd := (s.sdata.getD loc ⟨0, 0, 0⟩).head
        if next ∉ s.outs.getD hd [] then .error (.disconnectedPath, s)
        else
          match s.queues.getD loc [] with
          | [] => .error (.pythonError, s)
          | front :: rest =>
            if c ≠ front then .error (.notAtFrontOfQueue, s)
            else
              let s1 := { s with queues := s.queues.set loc rest }
              let s2 := { s1 with queues := s1.queues.set next (s1.queues.getD next [] ++ [c]) }
              .ok { s2 with locs := s2.locs.set c (some next) }
    else .error (.pythonError, s)

/-! ### Dijkstra (`StreetNetwork.shortest_path`, source lines 139-184)

Distances live in `Option Nat`, `none` playing the role of
`float(\x27inf\x27)`.  `distance` and `previous_step` are the two dicts,
embedded as functions updated pointwise. -/

/-- Strict comparison of distances; `none` is `+infinity`. -/
def dlt : Option Nat → Option Nat → Bool
  | some a, some b => a < b
  | some _, none => true
  | none, _ => false

/-- `distance[node] + outstreet.weight`; infinity absorbs. -/
def dadd : Option Nat → Nat → Option Nat
  | some a, w => some (a + w)
  | none, _ => none

/-- Pointwise update of a dict embedded as a function. -/
def upd {α : Type} (f : Nat → α) (n : Nat) (v : α) : Nat → α :=
  fun m => if m = n then v else f m

/-- `min([node for node in nodes], key=distance.get)` (source line 159):
Python `min` keeps the first element among those of minimal key, which is
what a left fold with strict replacement computes.  `min` of an empty list
raises ValueError, modelled as `none`. -/
def selectMin (dist : Nat → Option Nat) : List Nat → Option Nat
  | [] => none
  | n :: ns => some (ns.foldl (fun best m => if dlt (dist m) (dist best) then m else best) n)

/-- One relaxation (source lines 164-169): for the outgoing street `sid` of
`node`, update the distance and predecessor street of `outstreet.head` on
strict improvement only. -/
def relaxStep (sd : List StreetD) (node : Nat)
    (dp : (Nat → Option Nat) × (Nat → Option Nat)) (sid : Nat) :
    (Nat → Option Nat) × (Nat → Option Nat) :=
  let st := sd.getD sid ⟨0, 0, 0⟩
  let alternative := dadd (dp.1 node) st.weight
  if dlt alternative (dp.1 st.head) then
    (upd dp.1 st.head alternative, upd dp.2 st.head (some sid))
  else dp

/-- Relax every outgoing street of `node` in the order of the outstreets
list (source line 164). -/
def relaxAll (sd : List StreetD) (node : Nat) (outEdges : List Nat)
    (dp : (Nat → Option Nat) × (Nat → Option Nat)) :
    (Nat → Option Nat) × (Nat → Option Nat) :=
  outEdges.foldl (relaxStep sd node) dp

/-- The labelling loop (source lines 158-169): select the unfinalized node
of minimal distance, stop when it is the destination, otherwise remove it
(`list.remove`, first occurrence) and relax its outgoing streets.  The
fuel only mirrors the fact that each non-breaking iteration removes one
node: one unit more than the node count can never be exhausted. -/
def spLoop (sd : List StreetD) (outs : List (List Nat)) (destination : Nat) :
    Nat → List Nat → (Nat → Option Nat) → (Nat → Option Nat) →
    Option ((Nat → Option Nat) × (Nat → Option Nat))
  | 0, _, _, _ => none
  | fuel + 1, nodes, dist, prev =>
    match selectMin dist nodes with
    | none => none
    | some node =>
      if node = destination then some (dist, prev)
      else
        let dp := relaxAll sd node (outs.getD node []) (dist, prev)
        spLoop sd outs destination fuel (nodes.erase node) dp.1 dp.2

/-- Backtracking (source lines 171-177): walk `previous_step` backward from
the destination, prepending each street, moving to its tail.  A cycle in
`previous_step` would make Python loop forever; the fuel covers every
chain the algorithm can produce (proved below), exhaustion is `none`. -/
def backGo (sd : List StreetD) (prev : Nat → Option Nat) :
    Nat → Nat → List Nat → Option (List Nat)
  | 0, _, _ => none
  | fuel + 1, node, acc =>
    match prev node with
    | none => some acc
    | some sid => backGo sd prev fuel (sd.getD sid ⟨0, 0, 0⟩).tail (sid :: acc)

/-- `StreetNetwork.shortest_path` (source lines 139-184).  Initialization
sets `distance[source] = 0`, every other node to infinity and every
predecessor to None; after the loop breaks on the destination the path is
rebuilt backward; an empty path raises DisconnectedPathError. -/
def shortest_path (s : S) (source destination : Nat) : Except Err (List Nat) :=
  let dist0 : Nat → Option Nat := fun n => if n = source then some 0 else none
  let prev0 : Nat → Option Nat := fun _ => none
  match spLoop s.sdata s.outs destination (s.inters.length + 1) s.inters dist0 prev0 with
  | none => .error .pythonError
  | some dp =>
    match backGo s.sdata dp.2 (s.inters.length + 1) destination [] with
    | none => .error .pythonError
    | some path => if path = [] then .error .disconnectedPath else .ok path

/-! ### `StreetNetwork.square_lattice` (source lines 52-125) -/

/-- `np.ones((rows, cols))` (source lines 64-67): numpy rejects negative
dimensions (reachable only when `height` or `width` is 0), otherwise a
rows-by-cols matrix of ones. -/
def defaultOnes (rows cols : Int) : Except Err (List (List Nat)) :=
  if rows < 0 ∨ cols < 0 then .error .pythonError
  else .ok (List.replicate rows.toNat (List.replicate cols.toNat 1))

/-- The shape check of one weights matrix (source lines 81-92): the row
count must be `h` and every row length must be `w`.  The expected sizes are
integers because Python computes `height - 1` over the integers. -/
def checkMatrix (h w : Int) (m : List (List Nat)) : Bool :=
  ((m.length : Int) == h) && m.all (fun row => (row.length : Int) == w)

/-- A state holding `n` fresh intersections (ids `0..n-1`, all adjacency
lists empty) and nothing else: the situation after `n` calls of
`Intersection.__init__` and before any street exists. -/
def freshNetwork (n : Nat) : S :=
  { inters := List.range n
    streets := []
    cars := []
    outs := List.replicate n []
    ins := List.replicate n []
    sdata := []
    queues := []
    paths := []
    locs := [] }

/-- The state before any street exists: the `height*width` grid of fresh
intersections in row-major order (source lines 94-96 and 120-122), node
`(i, j)` having id `i*width + j`. -/
def latticeBase (height width : Nat) : S :=
  freshNetwork (height * width)

/-- Create the streets of a spec list in order (each list element giving
tail id, head id and weight), every creation registering itself exactly as
`Street.__init__` does. -/
def addStreets (s : S) (l : List StreetD) : S :=
  l.foldl (fun acc e => newStreet acc e.tail e.head e.weight) s

/-- Southbound streets (source lines 102-105): `(i,j) -> (i+1,j)` with
weight `south_weights[i][j]`, i outer, j inner. -/
def southList (height width : Nat) (sW : List (List Nat)) : List StreetD :=
  (List.range (height - 1)).flatMap fun i =>
    (List.range width).map fun j =>
      ⟨i * width + j, (i + 1) * width + j, (sW.getD i []).getD j 0⟩

/-- Northbound streets (source lines 106-109): `(i+1,j) -> (i,j)`.  The
source reads `weights['south'][i][j]` here, so northbound streets take the
SOUTH weight matrix values; the north matrix values are never used. -/
def northList (height width : Nat) (sW : List (List Nat)) : List StreetD :=
  (List.range (height - 1)).flatMap fun i =>
    (List.range width).map fun j =>
      ⟨(i + 1) * width + j, i * width + j, (sW.getD i []).getD j 0⟩

/-- Eastbound streets (source lines 110-113): `(i,j) -> (i,j+1)` with
weight `east_weights[i][j]`. -/
def eastList (height width : Nat) (eW : List (List Nat)) : List StreetD :=
  (List.range height).flatMap fun i =>
    (List.range (width - 1)).map fun j =>
      ⟨i * width + j, i * width + j + 1, (eW.getD i []).getD j 0⟩

/-- Westbound streets (source lines 114-117): `(i,j+1) -> (i,j)` with
weight `west_weights[i][j]`. -/
def westList (height width : Nat) (wW : List (List Nat)) : List StreetD :=
  (List.range height).flatMap fun i =>
    (List.range (width - 1)).map fun j =>
      ⟨i * width + j + 1, i * width + j, (wW.getD i []).getD j 0⟩

/-- The construction phase of `square_lattice` (source lines 94-125).
Street objects are created in source evaluation order (south, north, east,
west comprehensions), which fixes both the street ids and the order of
every outstreets and instreets list; the network street collection is
`north + east + south + west` (source line 118), expressed through the
creation-order id ranges of the four blocks. -/
def latticeCreation (height width : Nat) (eW sW wW : List (List Nat)) : List StreetD :=
  southList height width sW ++ northList height width sW ++
    eastList height width eW ++ westList height width wW

def buildLattice (height width : Nat) (eW sW wW : List (List Nat)) : S :=
  let sc := (height - 1) * width
  let ec := height * (width - 1)
  let s0 := addStreets (latticeBase height width)
    (latticeCreation height width eW sW wW)
  { s0 with streets :=
      List.range' sc sc ++ List.range' (2 * sc) ec ++
      List.range' 0 sc ++ List.range' (2 * sc + ec) ec }

/-- `StreetNetwork.square_lattice` (source lines 52-125): fill in default
weight matrices (lines 64-67, in that order), check the four shapes in the
dict insertion order north, east, south, west (lines 69-92, both checks
raising LatticeDimensionsError), and only then build the grid.  On any
error no intersection or street has been created. -/
def suppliedOrDefault (rows cols : Int) (o : Option (List (List Nat))) :
    Except Err (List (List Nat)) :=
  match o with
  | some m => Except.ok m
  | none => defaultOnes rows cols

def square_lattice (height width : Nat)
    (northW eastW southW westW : Option (List (List Nat))) : Except Err S :=
  let supply := suppliedOrDefault
  match supply ((height : Int) - 1) (width : Int) northW with
  | .error e => .error e
  | .ok nW =>
    match supply (height : Int) ((width : Int) - 1) eastW with
    | .error e => .error e
    | .ok eW =>
      match supply ((height : Int) - 1) (width : Int) southW with
      | .error e => .error e
      | .ok sW =>
        match supply (height : Int) ((width : Int) - 1) westW with
        | .error e => .error e
        | .ok wW =>
          if !checkMatrix ((height : Int) - 1) (width : Int) nW then
            .error .latticeDimensions
          else if !checkMatrix (height : Int) ((width : Int) - 1) eW then
            .error .latticeDimensions
          else if !checkMatrix ((height : Int) - 1) (width : Int) sW then
            .error .latticeDimensions
          else if !checkMatrix (height : Int) ((width : Int) - 1) wW then
            .error .latticeDimensions
          else .ok (buildLattice height width eW sW wW)

/-! ### The concrete networks of `test_shortest_path` (test.py lines 169-239)

Intersections A..H get ids 0..7 (creation order), streets get ids 0..14 in
creation order AB, BC, DE, EF, GH, AG, AD, DG, DC, CE, FC, CH, GE, EH, FH,
with the weights of the test. -/

/-- The fifteen streets of the Dijkstra test graph, in creation order. -/
def dijkstraEdges : List StreetD :=
  [⟨0, 1, 9⟩, ⟨1, 2, 24⟩, ⟨3, 4, 30⟩, ⟨4, 5, 11⟩, ⟨6, 7, 44⟩,
   ⟨0, 6, 15⟩, ⟨0, 3, 14⟩, ⟨3, 6, 5⟩, ⟨3, 2, 18⟩, ⟨2, 4, 2⟩,
   ⟨5, 2, 6⟩, ⟨2, 7, 19⟩, ⟨6, 4, 20⟩, ⟨4, 7, 16⟩, ⟨5, 7, 6⟩]

/-- `StreetNetwork.no_cars(nodes, edges)` for the Dijkstra test graph: the
fifteen streets were created first (registering themselves), then handed to
the network in the same order. -/
def dijkstraNet : S :=
  { addStreets (freshNetwork 8) dijkstraEdges with streets := List.range 15 }

/-- `network.streets.append(street)` as done by the test after creating a
replacement street (test.py lines 225 and 237). -/
def appendNetworkStreet (s : S) (sid : Nat) : S :=
  { s with streets := s.streets ++ [sid] }

/-- The graph after `cut_street(CH)` (test.py line 223); the default branch
is never taken (the cut succeeds, see `dijkstraNetCut_ok`). -/
def dijkstraNetCut : S :=
  match cut_street dijkstraNet 11 with
  | .ok s => s
  | .error _ => dijkstraNet

/-- The graph with CH replaced by a weight-17 street (test.py lines
223-225): the new street allocates id 15, registers itself at the end of
the outstreets of C and instreets of H, and is appended to the network
street list. -/
def dijkstraNet17 : S := appendNetworkStreet (newStreet dijkstraNetCut 2 7 17) 15

/-- The graph with that street replaced again by a weight-18 one (test.py
lines 235-237), allocating id 16. -/
def dijkstraNet18 : S :=
  match cut_street dijkstraNet17 15 with
  | .ok s => appendNetworkStreet (newStreet s 2 7 18) 16
  | .error _ => dijkstraNet17

/-! ### The concrete car scenarios of test.py (lines 7-107)

Intersections A, B, C get ids 0, 1, 2; streets AB, BC, CB get ids 0, 1, 2
(creation order); cars get ids in creation order. -/

/-- The network `A --> B <==> C` of the tests: streets AB = 0 (0 to 1),
BC = 1 (1 to 2), CB = 2 (2 to 1), assembled by `no_cars`. -/
def simpleNet : S :=
  { addStreets (freshNetwork 3) [⟨0, 1, 1⟩, ⟨1, 2, 1⟩, ⟨2, 1, 1⟩] with
    streets := [0, 1, 2] }

/-- `Car([BC], network)` (test.py line 58): one car, id 0, sitting in the
queue of street BC. -/
def cutCarNet : S := newCar simpleNet [1] (by decide)

/-- A car with path [BC, CB] created first (id 0, front of the BC queue),
then a car with path [BC] created second (id 1, behind it).  The rear car
is at its final street, so its `move()` takes the arrival branch while it
is not at the front of the queue. -/
def blockedArrivalNet : S :=
  newCar (newCar simpleNet [1, 2] (by decide)) [1] (by decide)

/-- The situation of test.py lines 90-94: a car with path [BC] first (id 0,
front), a car with path [BC, CB] behind it (id 1); moving the rear car must
fail with NotAtFrontOfQueueError. -/
def blockedStepNet : S :=
  newCar (newCar simpleNet [1] (by decide)) [1, 2] (by decide)

/-- A three-node network with a cycle between nodes 0 and 1: streets
s0 = 0 to 1, s1 = 1 to 0, s2 = 1 to 2. -/
def cycleNet : S :=
  { addStreets (freshNetwork 3) [⟨0, 1, 1⟩, ⟨1, 0, 1⟩, ⟨1, 2, 1⟩] with
    streets := [0, 1, 2] }

/-- A car whose path [s0, s1, s0, s2] contains street s0 at indices 0 and
2, currently occupying s0. -/
def dupPathNet : S := newCar cycleNet [0, 1, 0, 2] (by decide)

/-! ### Small list helpers -/

theorem getD_set_self {α : Type} (l : List α) (i : Nat) (v d : α) (h : i < l.length) :
    (l.set i v).getD i d = v := by
  rw [List.getD_eq_getElem?_getD, List.getElem?_set_self']
  simp [List.getElem?_eq_getElem, h]

theorem getD_set_ne {α : Type} (l : List α) (i j : Nat) (v d : α) (h : i ≠ j) :
    (l.set i v).getD j d = l.getD j d := by
  rw [List.getD_eq_getElem?_getD, List.getElem?_set_ne h, ← List.getD_eq_getElem?_getD]

/-! ### Claim theorems -/

/-- C2: on the 8-node test graph (A..H = ids 0..7; streets in creation
order AB=0, BC=1, DE=2, EF=3, GH=4, AG=5, AD=6, DG=7, DC=8, CE=9, FC=10,
CH=11, GE=12, EH=13, FH=14), `shortest_path(A, H)` returns exactly
[AD, DC, CE, EH] = [6, 8, 9, 13]; after cutting CH and adding a weight-17
replacement (id 15) the result is [AD, DC, CH] = [6, 8, 15]; after
replacing it again with a weight-18 street (id 16), which makes A-D-C-H
cost-equal to A-D-C-E-H, the result is still [AD, DC, CH] = [6, 8, 16]:
relaxation updates a neighbor only on strict improvement, so the
earlier-discovered equal-cost path is never overwritten. -/
theorem shortest_path_is_deterministic_on_test_graph :
    shortest_path dijkstraNet 0 7 = .ok [6, 8, 9, 13] ∧
    cut_street dijkstraNet 11 = .ok dijkstraNetCut ∧
    dijkstraNet17.sdata.getD 15 ⟨0, 0, 0⟩ = ⟨2, 7, 17⟩ ∧
    shortest_path dijkstraNet17 0 7 = .ok [6, 8, 15] ∧
    dijkstraNet18.sdata.getD 16 ⟨0, 0, 0⟩ = ⟨2, 7, 18⟩ ∧
    shortest_path dijkstraNet18 0 7 = .ok [6, 8, 16] :=
  ⟨rfl, rfl, rfl, rfl, rfl, rfl⟩

/-- C1 fails on the code: in `cutCarNet` the queue of street 1 (BC) holds
car 0, yet `cut_street` does not raise CannotCutStreetError; it removes
the street from the network collection and from both adjacency lists (the
queue, holding the car, is simply orphaned).  The guard
`if not street.q.empty:` tests an uncalled method object, which is always
truthy, so the RemovalConflictError branch is dead code. -/
theorem cut_street_succeeds_on_occupied_street :
    cutCarNet.queues.getD 1 [] = [0] ∧
    cut_street cutCarNet 1 =
      .ok { cutCarNet with
            streets := [0, 2]
            outs := [[0], [], [2]]
            ins := [[], [0, 2], []] } :=
  ⟨rfl, rfl⟩

/-- C3 fails on the code: in `blockedArrivalNet` the queue of street 1 is
[0, 1] (car 0 in front, car 1 behind); car 1 is on the last street of its
path, and its `move()` takes the arrival branch, which pops the FRONT of
the queue without any at-front check.  No OrderingError is raised: car 0
(which still has location street 1) is dequeued out of turn, while car 1
(whose location is cleared and which leaves `network.cars`) remains in the
queue. -/
theorem arrival_move_dequeues_wrong_car :
    blockedArrivalNet.queues.getD 1 [] = [0, 1] ∧
    blockedArrivalNet.locs.getD 1 none = some 1 ∧
    blockedArrivalNet.paths.getD 1 [] = [1] ∧
    move blockedArrivalNet 1 =
      .ok { blockedArrivalNet with
            queues := [[], [1], []]
            locs := [some 1, none]
            cars := [0] } :=
  ⟨rfl, rfl, rfl, rfl⟩

/-- C10: `move()` locates the car in its path through
`self.path.index(self.location)`, the index of the FIRST occurrence of the
current street.  Whenever the move succeeds, the arrival test and the next
hop are computed from that first-occurrence index, regardless of how many
hops the car has already taken: if the first occurrence is not last, the
new location is the street right after the first occurrence; if it is
last, the car departs (location cleared). -/
theorem move_uses_first_occurrence_index (s : S) (c loc : Nat)
    (hloc : s.locs.getD c none = some loc)
    (hmem : loc ∈ s.paths.getD c []) :
    ((s.paths.getD c []).indexOf loc + 1 < (s.paths.getD c []).length →
      ∀ s', move s c = .ok s' →
        s'.locs.getD c none =
          some ((s.paths.getD c []).getD ((s.paths.getD c []).indexOf loc + 1) 0)) ∧
    ((s.paths.getD c []).length ≤ (s.paths.getD c []).indexOf loc + 1 →
      ∀ s', move s c = .ok s' → s'.locs.getD c none = none) := by
  have hc : c < s.locs.length := by
    by_contra hge
    rw [List.getD_eq_default _ _ (Nat.le_of_not_lt hge)] at hloc
    exact Option.noConfusion hloc
  constructor
  · intro hlt s' hmv
    unfold move at hmv
    rw [hloc] at hmv
    simp only [hmem, if_pos] at hmv
    rw [if_neg (Nat.not_le_of_lt hlt)] at hmv
    split at hmv
    · exact absurd hmv (by simp)
    · split at hmv
      · exact absurd hmv (by simp)
      · split at hmv
        · exact absurd hmv (by simp)
        · simp only [Except.ok.injEq] at hmv
          subst hmv
          simp [getD_set_self, hc]
  · intro hge s' hmv
    unfold move at hmv
    rw [hloc] at hmv
    simp only [hmem, if_pos] at hmv
    rw [if_pos hge] at hmv
    split at hmv
    · exact absurd hmv (by simp)
    · split at hmv
      · simp only [Except.ok.injEq] at hmv
        subst hmv
        simp [getD_set_self, hc]
      · exact absurd hmv (by simp)

/-- The state after moving the car of `dupPathNet` once: although the car
occupies a street that also appears later in its path, the next hop is
street 1, the successor of the FIRST occurrence. -/
def dupPathMoved : S :=
  { dupPathNet with
    queues := [[], [0], []]
    locs := [some 1] }

theorem move_uses_first_occurrence_index_witness :
    dupPathMoved.locs.getD 0 none =
      some ((dupPathNet.paths.getD 0 []).getD
        ((dupPathNet.paths.getD 0 []).indexOf 0 + 1) 0) :=
  (move_uses_first_occurrence_index dupPathNet 0 0 rfl (by decide)).1 (by decide)
    dupPathMoved rfl

theorem suppliedOrDefault_error (rows cols : Int) (o : Option (List (List Nat)))
    (e : Err) (h : suppliedOrDefault rows cols o = .error e) : e = .pythonError := by
  unfold suppliedOrDefault defaultOnes at h
  repeat' split at h
  any_goals exact Except.noConfusion h
  injection h with h1
  exact h1.symm

/-- C6: whenever `Car.move` or `StreetNetwork.cut_street` raises one of
the four typed errors, the whole heap (every queue, every adjacency list,
the network collections and the car locations) is exactly the pre-call
state; and a typed error of the `square_lattice` constructor can only be
the dimension check failing, which happens before any network state is
produced.  (`pythonError` stands for the untyped Python exceptions outside
the error taxonomy of the spec; errors carry the state at the moment of
raising, so `s' = s` says the raise happened before any mutation.) -/
theorem typed_errors_have_no_effect :
    (∀ (s : S) (c : Nat) (e : Err) (s' : S),
      move s c = .error (e, s') → e ≠ .pythonError → s' = s) ∧
    (∀ (s : S) (st : Nat) (e : Err) (s' : S),
      cut_street s st = .error (e, s') → e ≠ .pythonError → s' = s) ∧
    (∀ (h w : Nat) (a b c d : Option (List (List Nat))) (e : Err),
      square_lattice h w a b c d = .error e → e ≠ .pythonError →
        e = .latticeDimensions) := by
  refine ⟨?_, ?_, ?_⟩
  · intro s c e s' hmv hne
    unfold move at hmv
    simp only [] at hmv
    repeat' split at hmv
    all_goals
      first
      | exact Except.noConfusion hmv
      | (injection hmv with h1
         injection h1 with he hs
         first
         | exact absurd he.symm hne
         | exact hs.symm)
  · intro s st e s' hct hne
    unfold cut_street at hct
    simp only [emptyMethodObjectIsTruthy, Bool.not_true, Bool.false_eq_true,
      if_false] at hct
    repeat' split at hct
    all_goals
      first
      | exact Except.noConfusion hct
      | (injection hct with h1
         injection h1 with he hs
         exact absurd he.symm hne)
  · intro h w a b c d e hsl hne
    unfold square_lattice at hsl
    simp only [] at hsl
    repeat' split at hsl
    all_goals
      first
      | exact Except.noConfusion hsl
      | (injection hsl with h1
         exact h1.symm)
      | (injection hsl with h1
         exact absurd (h1 ▸ suppliedOrDefault_error _ _ _ _ (by assumption)) hne)

theorem typed_errors_have_no_effect_witness : blockedStepNet = blockedStepNet :=
  typed_errors_have_no_effect.1 blockedStepNet 1 .notAtFrontOfQueue blockedStepNet
    rfl (by decide)

/-! ### Characterizing the lattice construction

`addStreets` is a fold of `Street.__init__` over a creation list; the
following lemmas recover the street arena and the adjacency lists of the
result.  `regIds sel base l n` lists the ids (allocated from `base`
onward) of the creation-list entries whose `sel` field is `n`, in creation
order. -/

def regIds (sel : StreetD → Nat) (base : Nat) : List StreetD → Nat → List Nat
  | [], _ => []
  | e :: rest, n => (if sel e = n then [base] else []) ++ regIds sel (base + 1) rest n

theorem regIds_length (sel : StreetD → Nat) (base : Nat) (l : List StreetD) (n : Nat) :
    (regIds sel base l n).length = l.countP (fun e => sel e == n) := by
  induction l generalizing base with
  | nil => rfl
  | cons e rest ih =>
    simp only [regIds, List.countP_cons, List.length_append, ih]
    by_cases h : sel e = n
    · simp [h, Nat.add_comm]
    · simp [h]

theorem addStreets_inters (s : S) (l : List StreetD) :
    (addStreets s l).inters = s.inters := by
  induction l generalizing s with
  | nil => rfl
  | cons e rest ih => exact ih (newStreet s e.tail e.head e.weight)

theorem addStreets_sdata (s : S) (l : List StreetD) :
    (addStreets s l).sdata = s.sdata ++ l := by
  induction l generalizing s with
  | nil => simp [addStreets]
  | cons e rest ih =>
    have : (newStreet s e.tail e.head e.weight).sdata = s.sdata ++ [e] := rfl
    simp [addStreets] at ih ⊢
    rw [ih, this, List.append_assoc]
    rfl

theorem addStreets_outs_length (s : S) (l : List StreetD) :
    (addStreets s l).outs.length = s.outs.length := by
  induction l generalizing s with
  | nil => rfl
  | cons e rest ih =>
    rw [addStreets, List.foldl_cons, ← addStreets, ih]
    simp [newStreet]

theorem addStreets_ins_length (s : S) (l : List StreetD) :
    (addStreets s l).ins.length = s.ins.length := by
  induction l generalizing s with
  | nil => rfl
  | cons e rest ih =>
    rw [addStreets, List.foldl_cons, ← addStreets, ih]
    simp [newStreet]

theorem addStreets_outs_getD (l : List StreetD) (s : S) (n : Nat)
    (hv : ∀ e ∈ l, e.tail < s.outs.length) :
    (addStreets s l).outs.getD n [] =
      s.outs.getD n [] ++ regIds StreetD.tail s.sdata.length l n := by
  induction l generalizing s with
  | nil => simp [addStreets, regIds]
  | cons e rest ih =>
    rw [addStreets, List.foldl_cons, ← addStreets]
    have htl : e.tail < s.outs.length := hv e (List.mem_cons_self e rest)
    have hstep : (newStreet s e.tail e.head e.weight).outs.getD n [] =
        s.outs.getD n [] ++ (if e.tail = n then [s.sdata.length] else []) := by
      by_cases h : e.tail = n
      · subst h
        simpa [newStreet] using getD_set_self s.outs e.tail _ [] htl
      · simpa [newStreet, h] using getD_set_ne s.outs e.tail n _ [] h
    have hrest : ∀ e' ∈ rest, e'.tail < (newStreet s e.tail e.head e.weight).outs.length := by
      intro e' he'
      have : (newStreet s e.tail e.head e.weight).outs.length = s.outs.length := by
        simp [newStreet]
      rw [this]
      exact hv e' (List.mem_cons_of_mem e he')
    rw [ih (newStreet s e.tail e.head e.weight) hrest, hstep]
    have hlen : (newStreet s e.tail e.head e.weight).sdata.length = s.sdata.length + 1 := by
      simp [newStreet]
    rw [hlen, regIds, List.append_assoc]

theorem addStreets_ins_getD (l : List StreetD) (s : S) (n : Nat)
    (hv : ∀ e ∈ l, e.head < s.ins.length) :
    (addStreets s l).ins.getD n [] =
      s.ins.getD n [] ++ regIds StreetD.head s.sdata.length l n := by
  induction l generalizing s with
  | nil => simp [addStreets, regIds]
  | cons e rest ih =>
    rw [addStreets, List.foldl_cons, ← addStreets]
    have htl : e.head < s.ins.length := hv e (List.mem_cons_self e rest)
    have hstep : (newStreet s e.tail e.head e.weight).ins.getD n [] =
        s.ins.getD n [] ++ (if e.head = n then [s.sdata.length] else []) := by
      by_cases h : e.head = n
      · subst h
        simpa [newStreet] using getD_set_self s.ins e.head _ [] htl
      · simpa [newStreet, h] using getD_set_ne s.ins e.head n _ [] h
    have hrest : ∀ e' ∈ rest, e'.head < (newStreet s e.tail e.head e.weight).ins.length := by
      intro e' he'
      have : (newStreet s e.tail e.head e.weight).ins.length = s.ins.length := by
        simp [newStreet]
      rw [this]
      exact hv e' (List.mem_cons_of_mem e he')
    rw [ih (newStreet s e.tail e.head e.weight) hrest, hstep]
    have hlen : (newStreet s e.tail e.head e.weight).sdata.length = s.sdata.length + 1 := by
      simp [newStreet]
    rw [hlen, regIds, List.append_assoc]

theorem countP_flatMap {α β : Type} (l : List α) (f : α → List β) (p : β → Bool) :
    (l.flatMap f).countP p = (l.map (fun a => (f a).countP p)).sum := by
  induction l with
  | nil => rfl
  | cons a rest ih => simp [List.flatMap_cons, List.countP_append, ih]

theorem countP_range_unique (B : Nat) (q : Nat → Bool) (b0 : Nat)
    (hq : ∀ b, b < B → (q b = true ↔ b = b0)) :
    (List.range B).countP q = if b0 < B then 1 else 0 := by
  induction B with
  | zero => simp
  | succ B ih =>
    rw [List.range_succ, List.countP_append]
    have ih' := ih (fun b hb => hq b (Nat.lt_succ_of_lt hb))
    simp only [List.countP_cons, List.countP_nil]
    by_cases hB : B = b0
    · subst hB
      have : q B = true := (hq B (Nat.lt_succ_self B)).mpr rfl
      simp [ih', this]
    · have : ¬ q B = true := fun h => hB ((hq B (Nat.lt_succ_self B)).mp h)
      rw [ih']
      by_cases hlt : b0 < B
      · simp [this, hlt, Nat.lt_succ_of_lt hlt]
      · have : ¬ b0 < B + 1 := by omega
        simp [‹¬ q B = true›, hlt, this]

theorem countP_range_zero (B : Nat) (q : Nat → Bool)
    (hq : ∀ b, b < B → q b = false) :
    (List.range B).countP q = 0 := by
  rw [List.countP_eq_zero]
  intro b hb
  simp [hq b (List.mem_range.mp hb)]

theorem sum_map_range_single (A a0 v : Nat) (g : Nat → Nat)
    (hg : ∀ a, a < A → g a = if a = a0 then v else 0) :
    ((List.range A).map g).sum = if a0 < A then v else 0 := by
  induction A with
  | zero => simp
  | succ A ih =>
    rw [List.range_succ, List.map_append, List.sum_append]
    have ih' := ih (fun a ha => hg a (Nat.lt_succ_of_lt ha))
    simp only [List.map_cons, List.map_nil, List.sum_cons, List.sum_nil]
    rw [ih', hg A (Nat.lt_succ_self A)]
    by_cases hA : A = a0
    · subst hA
      simp [Nat.lt_irrefl]
    · by_cases hlt : a0 < A
      · simp [hA, hlt, Nat.lt_succ_of_lt hlt]
      · have : ¬ a0 < A + 1 := by omega
        simp [hA, hlt, this]

/-- Decoding a row-major position: with both offsets below the stride `w`,
`a * w + b` determines the pair. -/
theorem grid_pair_eq {w a b i j : Nat} (hb : b < w) (hj : j < w)
    (h : a * w + b = i * w + j) : a = i ∧ b = j := by
  have hw : 0 < w := Nat.lt_of_le_of_lt (Nat.zero_le b) hb
  have hmb : (a * w + b) % w = b := by
    rw [Nat.mul_comm a w, Nat.mul_add_mod]
    exact Nat.mod_eq_of_lt hb
  have hmj : (i * w + j) % w = j := by
    rw [Nat.mul_comm i w, Nat.mul_add_mod]
    exact Nat.mod_eq_of_lt hj
  have hbj : b = j := by rw [← hmb, h, hmj]
  subst hbj
  have hmul : a * w = i * w := by omega
  exact ⟨Nat.eq_of_mul_eq_mul_right hw hmul, rfl⟩

/-- Counting the creation-list entries of a rectangular comprehension whose
selected field equals `n`, when the pair `(a0, b0)` is the unique candidate
position. -/
theorem countP_grid (A B : Nat) (f : Nat → Nat → StreetD) (p : StreetD → Bool)
    (a0 b0 : Nat)
    (huniq : ∀ a b, a < A → b < B → (p (f a b) = true ↔ (a = a0 ∧ b = b0))) :
    ((List.range A).flatMap fun a => (List.range B).map (f a)).countP p
      = if a0 < A ∧ b0 < B then 1 else 0 := by
  rw [countP_flatMap]
  have inner : ∀ a, a < A →
      ((List.range B).map (f a)).countP p =
        if a = a0 then (if b0 < B then 1 else 0) else 0 := by
    intro a ha
    rw [List.countP_map]
    by_cases haa : a = a0
    · subst haa
      simp only [if_pos rfl]
      exact countP_range_unique B _ b0 (by
        intro b hb
        simpa using (huniq a b ha hb).trans (by simp))
    · rw [if_neg haa]
      exact countP_range_zero B _ (by
        intro b hb
        have := huniq a b ha hb
        simp only [Function.comp_apply]
        rcases hp : p (f a b) with _ | _
        · rfl
        · exact absurd (this.mp hp).1 haa)
  rw [sum_map_range_single A a0 (if b0 < B then 1 else 0) _ inner]
  by_cases h1 : a0 < A
  · by_cases h2 : b0 < B
    · simp [h1, h2]
    · simp [h1, h2]
  · simp [h1]

/-- The zero case: no position of the comprehension satisfies `p`. -/
theorem countP_grid_zero (A B : Nat) (f : Nat → Nat → StreetD) (p : StreetD → Bool)
    (hz : ∀ a b, a < A → b < B → p (f a b) = false) :
    ((List.range A).flatMap fun a => (List.range B).map (f a)).countP p = 0 := by
  rw [List.countP_eq_zero]
  intro e he
  rcases List.mem_flatMap.mp he with ⟨a, ha, hin⟩
  rcases List.mem_map.mp hin with ⟨b, hb, rfl⟩
  simp [hz a b (List.mem_range.mp ha) (List.mem_range.mp hb)]

theorem gridList_length (A B : Nat) (f : Nat → Nat → StreetD) :
    ((List.range A).flatMap fun a => (List.range B).map (f a)).length = A * B := by
  induction A with
  | zero => simp
  | succ A ih =>
    rw [List.range_succ, List.flatMap_append]
    simp [ih, Nat.succ_mul]

theorem gridList_getD (A B : Nat) (f : Nat → Nat → StreetD) (a b : Nat)
    (ha : a < A) (hb : b < B) (d : StreetD) :
    ((List.range A).flatMap fun x => (List.range B).map (f x)).getD (a * B + b) d
      = f a b := by
  induction A generalizing f a with
  | zero => omega
  | succ A ih =>
    rw [List.range_succ_eq_map, List.flatMap_cons, List.flatMap_map]
    cases a with
    | zero =>
      have hlen : b < ((List.range B).map (f 0)).length := by simpa using hb
      rw [Nat.zero_mul, Nat.zero_add, List.getD_append _ _ _ _ hlen]
      rw [List.getD_eq_getElem _ _ hlen]
      simp
    | succ a' =>
      have hlen : ((List.range B).map (f 0)).length = B := by simp
      have hge : ((List.range B).map (f 0)).length ≤ (a' + 1) * B + b := by
        rw [hlen, Nat.succ_mul]
        omega
      rw [List.getD_append_right _ _ _ _ hge]
      have hsub : (a' + 1) * B + b - ((List.range B).map (f 0)).length
          = a' * B + b := by
        rw [hlen, Nat.succ_mul]
        generalize a' * B = t
        omega
      rw [hsub]
      have := ih (fun x => f (x + 1)) a' (Nat.lt_of_succ_lt_succ ha)
      simpa [Nat.succ_eq_add_one] using this

theorem mem_gridList_elim {A B : Nat} {f : Nat → Nat → StreetD} {e : StreetD}
    (he : e ∈ (List.range A).flatMap fun a => (List.range B).map (f a)) :
    ∃ a b, a < A ∧ b < B ∧ e = f a b := by
  rcases List.mem_flatMap.mp he with ⟨a, ha, hin⟩
  rcases List.mem_map.mp hin with ⟨b, hb, rfl⟩
  exact ⟨a, b, List.mem_range.mp ha, List.mem_range.mp hb, rfl⟩

theorem cell_lt {a b h w : Nat} (ha : a + 1 ≤ h) (hb : b < w) : a * w + b < h * w := by
  have h1 : a * w + b < (a + 1) * w := by
    rw [Nat.succ_mul]
    omega
  exact Nat.lt_of_lt_of_le h1 (Nat.mul_le_mul_right w ha)

theorem getD_replicate_nil (k n : Nat) :
    (List.replicate k ([] : List Nat)).getD n [] = [] := by
  by_cases h : n < k
  · rw [List.getD_eq_getElem _ _ (by simpa using h)]
    exact List.getElem_replicate ..
  · exact List.getD_eq_default _ _ (by simpa using Nat.le_of_not_lt h)

/-- Count of grid-comprehension entries whose selected endpoint is the
plain cell `a*w + b`. -/
theorem countP_shape_id (A B w i j : Nat) (f : Nat → Nat → StreetD)
    (sel : StreetD → Nat) (hsel : ∀ a b, sel (f a b) = a * w + b)
    (hB : B ≤ w) (hj : j < w) :
    ((List.range A).flatMap fun a => (List.range B).map (f a)).countP
        (fun e => sel e == i * w + j)
      = if i < A ∧ j < B then 1 else 0 := by
  by_cases hjB : j < B
  · rw [countP_grid A B f _ i j (by
      intro a b ha hb
      simp only [hsel, beq_iff_eq]
      constructor
      · intro h
        exact grid_pair_eq (Nat.lt_of_lt_of_le hb hB) hj h
      · rintro ⟨rfl, rfl⟩
        rfl)]
  · have hz : ∀ a b, a < A → b < B →
        (fun e => sel e == i * w + j) (f a b) = false := by
      intro a b ha hb
      simp only [hsel, beq_eq_false_iff_ne, ne_eq]
      intro h
      exact hjB ((grid_pair_eq (Nat.lt_of_lt_of_le hb hB) hj h).2 ▸ hb)
    rw [countP_grid_zero A B f _ hz]
    simp [hjB]

/-- Count of grid-comprehension entries whose selected endpoint is the
row-shifted cell `(a+1)*w + b`. -/
theorem countP_shape_succRow (A w i j : Nat) (f : Nat → Nat → StreetD)
    (sel : StreetD → Nat) (hsel : ∀ a b, sel (f a b) = (a + 1) * w + b)
    (hj : j < w) :
    ((List.range A).flatMap fun a => (List.range w).map (f a)).countP
        (fun e => sel e == i * w + j)
      = if 1 ≤ i ∧ i - 1 < A then 1 else 0 := by
  by_cases hi : 1 ≤ i
  · rw [countP_grid A w f _ (i - 1) j (by
      intro a b ha hb
      simp only [hsel, beq_iff_eq]
      constructor
      · intro h
        have := grid_pair_eq hb hj h
        omega
      · intro h
        have ha1 : a + 1 = i := by omega
        have hbj : b = j := h.2
        rw [ha1, hbj])]
    simp [hi, hj]
  · have hz : ∀ a b, a < A → b < w →
        (fun e => sel e == i * w + j) (f a b) = false := by
      intro a b ha hb
      simp only [hsel, beq_eq_false_iff_ne, ne_eq]
      intro h
      have := grid_pair_eq hb hj h
      omega
    rw [countP_grid_zero A w f _ hz]
    simp [hi]

/-- Count of grid-comprehension entries whose selected endpoint is the
column-shifted cell `a*w + (b+1)`. -/
theorem countP_shape_succCol (A B w i j : Nat) (f : Nat → Nat → StreetD)
    (sel : StreetD → Nat) (hsel : ∀ a b, sel (f a b) = a * w + (b + 1))
    (hB : B < w) (hj : j < w) :
    ((List.range A).flatMap fun a => (List.range B).map (f a)).countP
        (fun e => sel e == i * w + j)
      = if i < A ∧ 1 ≤ j ∧ j - 1 < B then 1 else 0 := by
  by_cases hjpos : 1 ≤ j
  · by_cases hjB : j - 1 < B
    · rw [countP_grid A B f _ i (j - 1) (by
        intro a b ha hb
        simp only [hsel, beq_iff_eq]
        constructor
        · intro h
          have := grid_pair_eq (by omega : b + 1 < w) hj h
          omega
        · intro h
          have hb1 : b + 1 = j := by omega
          have hai : a = i := h.1
          rw [hai, hb1])]
      simp [hjpos, hjB]
    · have hz : ∀ a b, a < A → b < B →
          (fun e => sel e == i * w + j) (f a b) = false := by
        intro a b ha hb
        simp only [hsel, beq_eq_false_iff_ne, ne_eq]
        intro h
        have := grid_pair_eq (by omega : b + 1 < w) hj h
        omega
      rw [countP_grid_zero A B f _ hz]
      simp [hjB]
  · have hz : ∀ a b, a < A → b < B →
        (fun e => sel e == i * w + j) (f a b) = false := by
      intro a b ha hb
      simp only [hsel, beq_eq_false_iff_ne, ne_eq]
      intro h
      have := grid_pair_eq (by omega : b + 1 < w) hj h
      omega
    rw [countP_grid_zero A B f _ hz]
    simp [hjpos]

theorem latticeCreation_tail_lt (h w : Nat) (eW sW wW : List (List Nat)) :
    ∀ e ∈ latticeCreation h w eW sW wW, e.tail < h * w := by
  intro e he
  unfold latticeCreation at he
  rcases List.mem_append.mp he with he | hwest
  · rcases List.mem_append.mp he with he | heast
    · rcases List.mem_append.mp he with hsouth | hnorth
      · rcases mem_gridList_elim hsouth with ⟨a, b, ha, hb, rfl⟩
        show a * w + b < h * w
        exact cell_lt (by omega) hb
      · rcases mem_gridList_elim hnorth with ⟨a, b, ha, hb, rfl⟩
        show (a + 1) * w + b < h * w
        exact cell_lt (by omega) hb
    · rcases mem_gridList_elim heast with ⟨a, b, ha, hb, rfl⟩
      show a * w + b < h * w
      exact cell_lt (by omega) (by omega)
  · rcases mem_gridList_elim hwest with ⟨a, b, ha, hb, rfl⟩
    show a * w + b + 1 < h * w
    have := @cell_lt a (b + 1) h w (by omega) (by omega)
    omega

theorem latticeCreation_head_lt (h w : Nat) (eW sW wW : List (List Nat)) :
    ∀ e ∈ latticeCreation h w eW sW wW, e.head < h * w := by
  intro e he
  unfold latticeCreation at he
  rcases List.mem_append.mp he with he | hwest
  · rcases List.mem_append.mp he with he | heast
    · rcases List.mem_append.mp he with hsouth | hnorth
      · rcases mem_gridList_elim hsouth with ⟨a, b, ha, hb, rfl⟩
        show (a + 1) * w + b < h * w
        exact cell_lt (by omega) hb
      · rcases mem_gridList_elim hnorth with ⟨a, b, ha, hb, rfl⟩
        show a * w + b < h * w
        exact cell_lt (by omega) hb
    · rcases mem_gridList_elim heast with ⟨a, b, ha, hb, rfl⟩
      show a * w + b + 1 < h * w
      have := @cell_lt a (b + 1) h w (by omega) (by omega)
      omega
  · rcases mem_gridList_elim hwest with ⟨a, b, ha, hb, rfl⟩
    show a * w + b < h * w
    exact cell_lt (by omega) (by omega)

theorem buildLattice_outs_getD (h w : Nat) (eW sW wW : List (List Nat)) (n : Nat) :
    (buildLattice h w eW sW wW).outs.getD n [] =
      regIds StreetD.tail 0 (latticeCreation h w eW sW wW) n := by
  have hb : ∀ e ∈ latticeCreation h w eW sW wW,
      e.tail < (latticeBase h w).outs.length := by
    intro e he
    simpa [latticeBase, freshNetwork] using latticeCreation_tail_lt h w eW sW wW e he
  have := addStreets_outs_getD (latticeCreation h w eW sW wW) (latticeBase h w) n hb
  simpa [buildLattice, latticeBase, freshNetwork, getD_replicate_nil] using this

theorem buildLattice_ins_getD (h w : Nat) (eW sW wW : List (List Nat)) (n : Nat) :
    (buildLattice h w eW sW wW).ins.getD n [] =
      regIds StreetD.head 0 (latticeCreation h w eW sW wW) n := by
  have hb : ∀ e ∈ latticeCreation h w eW sW wW,
      e.head < (latticeBase h w).ins.length := by
    intro e he
    simpa [latticeBase, freshNetwork] using latticeCreation_head_lt h w eW sW wW e he
  have := addStreets_ins_getD (latticeCreation h w eW sW wW) (latticeBase h w) n hb
  simpa [buildLattice, latticeBase, freshNetwork, getD_replicate_nil] using this

theorem buildLattice_outdeg (h w : Nat) (eW sW wW : List (List Nat)) (i j : Nat)
    (hi : i < h) (hj : j < w) :
    ((buildLattice h w eW sW wW).outs.getD (i * w + j) []).length =
      (if i < h - 1 then 1 else 0) + (if 1 ≤ i then 1 else 0) +
        (if j < w - 1 then 1 else 0) + (if 1 ≤ j then 1 else 0) := by
  rw [buildLattice_outs_getD, regIds_length]
  unfold latticeCreation southList northList eastList westList
  rw [List.countP_append, List.countP_append, List.countP_append]
  rw [countP_shape_id (h - 1) w w i j _ StreetD.tail (fun a b => rfl) (Nat.le_refl w) hj]
  rw [countP_shape_succRow (h - 1) w i j _ StreetD.tail (fun a b => rfl) hj]
  rw [countP_shape_id h (w - 1) w i j _ StreetD.tail (fun a b => rfl) (Nat.sub_le w 1) hj]
  rw [countP_shape_succCol h (w - 1) w i j _ StreetD.tail (fun a b => rfl) (by omega) hj]
  have e1 : (if i < h - 1 ∧ j < w then 1 else 0) = if i < h - 1 then 1 else 0 := by
    split_ifs <;> omega
  have e2 : (if 1 ≤ i ∧ i - 1 < h - 1 then 1 else 0) = if 1 ≤ i then 1 else 0 := by
    split_ifs <;> omega
  have e3 : (if i < h ∧ j < w - 1 then 1 else 0) = if j < w - 1 then 1 else 0 := by
    split_ifs <;> omega
  have e4 : (if i < h ∧ 1 ≤ j ∧ j - 1 < w - 1 then 1 else 0) = if 1 ≤ j then 1 else 0 := by
    split_ifs <;> omega
  rw [e1, e2, e3, e4]

theorem buildLattice_indeg (h w : Nat) (eW sW wW : List (List Nat)) (i j : Nat)
    (hi : i < h) (hj : j < w) :
    ((buildLattice h w eW sW wW).ins.getD (i * w + j) []).length =
      (if 1 ≤ i then 1 else 0) + (if i < h - 1 then 1 else 0) +
        (if 1 ≤ j then 1 else 0) + (if j < w - 1 then 1 else 0) := by
  rw [buildLattice_ins_getD, regIds_length]
  unfold latticeCreation southList northList eastList westList
  rw [List.countP_append, List.countP_append, List.countP_append]
  rw [countP_shape_succRow (h - 1) w i j _ StreetD.head (fun a b => rfl) hj]
  rw [countP_shape_id (h - 1) w w i j _ StreetD.head (fun a b => rfl) (Nat.le_refl w) hj]
  rw [countP_shape_succCol h (w - 1) w i j _ StreetD.head
    (fun a b => Nat.add_assoc (a * w) b 1) (by omega) hj]
  rw [countP_shape_id h (w - 1) w i j _ StreetD.head (fun a b => rfl) (Nat.sub_le w 1) hj]
  have e1 : (if i < h - 1 ∧ j < w then 1 else 0) = if i < h - 1 then 1 else 0 := by
    split_ifs <;> omega
  have e2 : (if 1 ≤ i ∧ i - 1 < h - 1 then 1 else 0) = if 1 ≤ i then 1 else 0 := by
    split_ifs <;> omega
  have e3 : (if i < h ∧ j < w - 1 then 1 else 0) = if j < w - 1 then 1 else 0 := by
    split_ifs <;> omega
  have e4 : (if i < h ∧ 1 ≤ j ∧ j - 1 < w - 1 then 1 else 0) = if 1 ≤ j then 1 else 0 := by
    split_ifs <;> omega
  rw [e1, e2, e3, e4]

theorem defaultOnes_natCast (r c : Nat) :
    defaultOnes (r : Int) (c : Int) = .ok (List.replicate r (List.replicate c 1)) := by
  unfold defaultOnes
  rw [if_neg (by omega)]
  simp

theorem checkMatrix_replicate (r c : Nat) :
    checkMatrix (r : Int) (c : Int) (List.replicate r (List.replicate c 1)) = true := by
  unfold checkMatrix
  simp [List.all_eq_true]

theorem square_lattice_default_ok (h w : Nat) (h1 : 1 ≤ h) (w1 : 1 ≤ w) :
    square_lattice h w none none none none =
      .ok (buildLattice h w
        (List.replicate h (List.replicate (w - 1) 1))
        (List.replicate (h - 1) (List.replicate w 1))
        (List.replicate h (List.replicate (w - 1) 1))) := by
  have hcast1 : ((h : Int) - 1) = ((h - 1 : Nat) : Int) := by omega
  have hcast2 : ((w : Int) - 1) = ((w - 1 : Nat) : Int) := by omega
  unfold square_lattice suppliedOrDefault
  simp only [hcast1, hcast2, defaultOnes_natCast, checkMatrix_replicate,
    Bool.not_true, Bool.false_eq_true, if_false]

theorem buildLattice_inters (h w : Nat) (eW sW wW : List (List Nat)) :
    (buildLattice h w eW sW wW).inters = List.range (h * w) := by
  simp [buildLattice, addStreets_inters, latticeBase, freshNetwork]

theorem buildLattice_streets_length (h w : Nat) (eW sW wW : List (List Nat)) :
    (buildLattice h w eW sW wW).streets.length =
      2 * (h * (w - 1) + (h - 1) * w) := by
  simp [buildLattice]
  ring

/-- C8: for `square_lattice(h, w)` (with the four corners distinct, i.e.
`h, w ≥ 2`), the out-degree of every intersection equals its in-degree,
and the node `(i, j)` has degree 2 at the four corners, 3 on the non-corner
boundary, and 4 in the interior. -/
theorem lattice_degrees_symmetric_and_classified (h w : Nat)
    (hh : 2 ≤ h) (hw : 2 ≤ w) :
    ∃ s, square_lattice h w none none none none = .ok s ∧
      (∀ n ∈ s.inters, (s.outs.getD n []).length = (s.ins.getD n []).length) ∧
      (∀ i j, i < h → j < w →
        (s.outs.getD (i * w + j) []).length =
          if (i = 0 ∨ i = h - 1) ∧ (j = 0 ∨ j = w - 1) then 2
          else if i = 0 ∨ i = h - 1 ∨ j = 0 ∨ j = w - 1 then 3
          else 4) := by
  refine ⟨_, square_lattice_default_ok h w (by omega) (by omega), ?_, ?_⟩
  · intro n hn
    rw [buildLattice_inters] at hn
    have hnlt : n < h * w := List.mem_range.mp hn
    have hw0 : 0 < w := by omega
    have hi : n / w < h := by
      rwa [Nat.div_lt_iff_lt_mul hw0]
    have hj : n % w < w := Nat.mod_lt n hw0
    have hn' : n / w * w + n % w = n := Nat.div_add_mod' n w
    rw [← hn']
    rw [buildLattice_outdeg h w _ _ _ (n / w) (n % w) hi hj,
      buildLattice_indeg h w _ _ _ (n / w) (n % w) hi hj]
    omega
  · intro i j hi hj
    rw [buildLattice_outdeg h w _ _ _ i j hi hj]
    split_ifs <;> omega

theorem lattice_degrees_witness :
    ∃ s, square_lattice 3 3 none none none none = .ok s ∧
      (∀ n ∈ s.inters, (s.outs.getD n []).length = (s.ins.getD n []).length) ∧
      (∀ i j, i < 3 → j < 3 →
        (s.outs.getD (i * 3 + j) []).length =
          if (i = 0 ∨ i = 3 - 1) ∧ (j = 0 ∨ j = 3 - 1) then 2
          else if i = 0 ∨ i = 3 - 1 ∨ j = 0 ∨ j = 3 - 1 then 3
          else 4) :=
  lattice_degrees_symmetric_and_classified 3 3 (by decide) (by decide)

/-- C7 as stated is refuted at `square_lattice(3,3)`: the code (and the
spec itself, concretely) gives 24 streets, but the claimed closed formula
`4*(h*(w-1) + (h-1)*w)` gives 48. -/
theorem lattice_street_count_formula_cex :
    (square_lattice 3 3 none none none none).toOption.map
        (fun s => s.streets.length) = some 24 ∧
      (24 : Nat) ≠ 4 * (3 * (3 - 1) + (3 - 1) * 3) :=
  ⟨rfl, by decide⟩

/-- C7 amended: `square_lattice(h, w)` produces `h*w` intersections and
`2*(h*(w-1) + (h-1)*w)` streets (one street per direction per adjacency,
i.e. the factor is 2 on the adjacency count, not 4); concretely 9/24 for
(3,3) and 35/116 for (5,7). -/
theorem lattice_counts :
    (∀ h w : Nat, 1 ≤ h → 1 ≤ w →
      ∃ s, square_lattice h w none none none none = .ok s ∧
        s.inters.length = h * w ∧
        s.streets.length = 2 * (h * (w - 1) + (h - 1) * w)) ∧
    (square_lattice 3 3 none none none none).toOption.map
      (fun s => (s.inters.length, s.streets.length)) = some (9, 24) ∧
    (square_lattice 5 7 none none none none).toOption.map
      (fun s => (s.inters.length, s.streets.length)) = some (35, 116) := by
  refine ⟨?_, rfl, rfl⟩
  intro h w h1 w1
  refine ⟨_, square_lattice_default_ok h w h1 w1, ?_, ?_⟩
  · rw [buildLattice_inters]
    simp
  · exact buildLattice_streets_length h w _ _ _

theorem lattice_counts_witness :
    ∃ s, square_lattice 5 7 none none none none = .ok s ∧
      s.inters.length = 5 * 7 ∧
      s.streets.length = 2 * (5 * (7 - 1) + (5 - 1) * 7) :=
  lattice_counts.1 5 7 (by decide) (by decide)

theorem square_lattice_some_ok (h w : Nat) (nW eW sW wW : List (List Nat)) (s : S)
    (hok : square_lattice h w (some nW) (some eW) (some sW) (some wW) = .ok s) :
    s = buildLattice h w eW sW wW := by
  unfold square_lattice suppliedOrDefault at hok
  simp only [] at hok
  repeat' split at hok
  all_goals first
    | exact Except.noConfusion hok
    | (injection hok with h1
       exact h1.symm)

theorem buildLattice_sdata (h w : Nat) (eW sW wW : List (List Nat)) :
    (buildLattice h w eW sW wW).sdata = latticeCreation h w eW sW wW := by
  simp [buildLattice, addStreets_sdata, latticeBase, freshNetwork]

/-- C4 fails on the code: in `square_lattice(1, 2)` with east weight
matrix [[1]] and west weight matrix [[9]], the single horizontal
antiparallel pair (street 0 eastbound `0 -> 1`, street 1 westbound
`1 -> 0`) has weights 1 and 9: antiparallel streets do not share an
underlying weight value. -/
theorem antiparallel_weights_cex :
    (square_lattice 1 2 (some []) (some [[1]]) (some []) (some [[9]])).toOption.map
        (fun s => s.sdata) = some [⟨0, 1, 1⟩, ⟨1, 0, 9⟩] ∧
      (1 : Nat) ≠ 9 :=
  ⟨rfl, by decide⟩

/-- C4 amended: in any successful `square_lattice` call with explicit
weight matrices, each VERTICAL antiparallel pair does share one weight
value, but that value is `south_weights[i][j]` for both directions (the
source reads the south matrix when building northbound streets, so the
north matrix values are unused); each HORIZONTAL antiparallel pair takes
`east_weights[i][j]` eastbound and `west_weights[i][j]` westbound, which
coincide only where those two matrices agree.  Street ids: southbound
`(i,j)->(i+1,j)` is `i*w+j`, its antiparallel northbound street is
`(h-1)*w` later; eastbound `(i,j)->(i,j+1)` is `2*(h-1)*w + i*(w-1)+j`,
its antiparallel westbound street is `h*(w-1)` later. -/
theorem antiparallel_weights_amended (h w : Nat) (nW eW sW wW : List (List Nat))
    (s : S)
    (hok : square_lattice h w (some nW) (some eW) (some sW) (some wW) = .ok s) :
    (∀ i j, i < h - 1 → j < w →
      s.sdata.getD (i * w + j) ⟨0, 0, 0⟩ =
        ⟨i * w + j, (i + 1) * w + j, (sW.getD i []).getD j 0⟩ ∧
      s.sdata.getD ((h - 1) * w + (i * w + j)) ⟨0, 0, 0⟩ =
        ⟨(i + 1) * w + j, i * w + j, (sW.getD i []).getD j 0⟩) ∧
    (∀ i j, i < h → j < w - 1 →
      s.sdata.getD (2 * ((h - 1) * w) + (i * (w - 1) + j)) ⟨0, 0, 0⟩ =
        ⟨i * w + j, i * w + j + 1, (eW.getD i []).getD j 0⟩ ∧
      s.sdata.getD (2 * ((h - 1) * w) + h * (w - 1) + (i * (w - 1) + j)) ⟨0, 0, 0⟩ =
        ⟨i * w + j + 1, i * w + j, (wW.getD i []).getD j 0⟩) := by
  rw [square_lattice_some_ok h w nW eW sW wW s hok, buildLattice_sdata]
  unfold latticeCreation
  have lenS : (southList h w sW).length = (h - 1) * w := gridList_length _ _ _
  have lenN : (northList h w sW).length = (h - 1) * w := gridList_length _ _ _
  have lenE : (eastList h w eW).length = h * (w - 1) := gridList_length _ _ _
  constructor
  · intro i j hi hj
    have hcell : i * w + j < (h - 1) * w := cell_lt (by omega) hj
    constructor
    · rw [List.getD_append _ _ _ _ (by
        simp only [List.length_append, lenS]
        omega)]
      rw [List.getD_append _ _ _ _ (by
        simp only [List.length_append, lenS]
        omega)]
      rw [List.getD_append _ _ _ _ (by rw [lenS]; exact hcell)]
      exact gridList_getD (h - 1) w _ i j hi hj _
    · rw [List.getD_append _ _ _ _ (by
        simp only [List.length_append, lenS, lenN]
        omega)]
      rw [List.getD_append _ _ _ _ (by
        simp only [List.length_append, lenS, lenN]
        omega)]
      rw [List.getD_append_right _ _ _ _ (by rw [lenS]; omega)]
      rw [show (h - 1) * w + (i * w + j) - (southList h w sW).length = i * w + j by
        rw [lenS]; omega]
      exact gridList_getD (h - 1) w _ i j hi hj _
  · intro i j hi hj
    have hcell : i * (w - 1) + j < h * (w - 1) := cell_lt (by omega) hj
    constructor
    · rw [List.getD_append _ _ _ _ (by
        simp only [List.length_append, lenS, lenN, lenE]
        omega)]
      rw [List.getD_append_right _ _ _ _ (by
        simp only [List.length_append, lenS, lenN]
        omega)]
      rw [show 2 * ((h - 1) * w) + (i * (w - 1) + j)
            - (southList h w sW ++ northList h w sW).length = i * (w - 1) + j by
        simp only [List.length_append, lenS, lenN]
        omega]
      exact gridList_getD h (w - 1) _ i j hi hj _
    · rw [List.getD_append_right _ _ _ _ (by
        simp only [List.length_append, lenS, lenN, lenE]
        omega)]
      rw [show 2 * ((h - 1) * w) + h * (w - 1) + (i * (w - 1) + j)
            - (southList h w sW ++ northList h w sW ++ eastList h w eW).length
            = i * (w - 1) + j by
        simp only [List.length_append, lenS, lenN, lenE]
        omega]
      exact gridList_getD h (w - 1) _ i j hi hj _

theorem antiparallel_weights_amended_witness :
    (buildLattice 2 2 [[2], [3]] [[4, 5]] [[6], [7]]).sdata.getD (0 * 2 + 0) ⟨0, 0, 0⟩ =
        ⟨0 * 2 + 0, (0 + 1) * 2 + 0, (([[4, 5]] : List (List Nat)).getD 0 []).getD 0 0⟩ ∧
      (buildLattice 2 2 [[2], [3]] [[4, 5]] [[6], [7]]).sdata.getD
          ((2 - 1) * 2 + (0 * 2 + 0)) ⟨0, 0, 0⟩ =
        ⟨(0 + 1) * 2 + 0, 0 * 2 + 0, (([[4, 5]] : List (List Nat)).getD 0 []).getD 0 0⟩ :=
  (antiparallel_weights_amended 2 2 [[1, 1]] [[2], [3]] [[4, 5]] [[6], [7]]
    (buildLattice 2 2 [[2], [3]] [[4, 5]] [[6], [7]]) rfl).1 0 0 (by decide) (by decide)

theorem checkMatrix_false_iff (r c : Nat) (m : List (List Nat)) :
    checkMatrix (r : Int) (c : Int) m = false ↔
      ¬(m.length = r ∧ ∀ row ∈ m, row.length = c) := by
  unfold checkMatrix
  rw [Bool.and_eq_false_iff]
  simp [List.all_eq_true]
  tauto

theorem errIff (c1 c2 c3 c4 : Bool) (s : S) :
    ((if c1 = true then (.error .latticeDimensions : Except Err S)
      else if c2 = true then .error .latticeDimensions
      else if c3 = true then .error .latticeDimensions
      else if c4 = true then .error .latticeDimensions
      else .ok s) = .error .latticeDimensions) ↔
      (c1 || c2 || c3 || c4) = true := by
  rcases c1 <;> rcases c2 <;> rcases c3 <;> rcases c4 <;> simp

/-- C9: for a grid with `h, w ≥ 1`, `square_lattice` raises
LatticeDimensionsError exactly when a SUPPLIED north or south matrix does
not consist of `h-1` rows of `w` entries, or a supplied east or west
matrix does not consist of `h` rows of `w-1` entries; omitted matrices
default to correctly-shaped all-ones arrays.  The check precedes the
construction phase, so on this error the constructor returns no network
at all (no intersection or street is created). -/
theorem lattice_dimension_check (h w : Nat) (h1 : 1 ≤ h) (w1 : 1 ≤ w)
    (nO eO sO wO : Option (List (List Nat))) :
    square_lattice h w nO eO sO wO = .error .latticeDimensions ↔
      ((∃ m, nO = some m ∧ ¬(m.length = h - 1 ∧ ∀ row ∈ m, row.length = w)) ∨
       (∃ m, eO = some m ∧ ¬(m.length = h ∧ ∀ row ∈ m, row.length = w - 1)) ∨
       (∃ m, sO = some m ∧ ¬(m.length = h - 1 ∧ ∀ row ∈ m, row.length = w)) ∨
       (∃ m, wO = some m ∧ ¬(m.length = h ∧ ∀ row ∈ m, row.length = w - 1))) := by
  have hc1 : ((h : Int) - 1) = ((h - 1 : Nat) : Int) := by omega
  have hc2 : ((w : Int) - 1) = ((w - 1 : Nat) : Int) := by omega
  have hh : h - 1 + 1 = h := by omega
  have hww : w - 1 + 1 = w := by omega
  unfold square_lattice suppliedOrDefault
  rcases nO with _ | nm <;> rcases eO with _ | em <;>
    rcases sO with _ | sm <;> rcases wO with _ | wm <;>
    simp only [hc1, hc2, defaultOnes_natCast] <;>
    rw [errIff] <;>
    (try simp only [checkMatrix_replicate, Bool.not_true, Bool.false_or,
      Bool.or_false]) <;>
    (try simp [Bool.or_eq_true, Bool.not_eq_true', checkMatrix_false_iff]) <;>
    (try exact or_assoc) <;> (try rw [or_assoc, or_assoc])

theorem lattice_dimension_check_witness :
    square_lattice 2 2 (some [[]]) none none none = .error .latticeDimensions :=
  (lattice_dimension_check 2 2 (by decide) (by decide)
      (some [[]]) none none none).mpr (Or.inl ⟨[[]], rfl, by decide⟩)

/-! ### Dijkstra correctness (C5)

`dlt` is the strict order on distances (`none` = infinity); the lemmas
below are the order facts the loop invariant needs. -/

theorem dlt_irrefl (a : Option Nat) : ¬ dlt a a = true := by
  rcases a <;> simp [dlt]

theorem dlt_ne_none {a b : Option Nat} (h : dlt a b = true) : a ≠ none := by
  rcases a <;> simp_all [dlt]

theorem dlt_none {a : Option Nat} (h : a ≠ none) : dlt a none = true := by
  rcases a <;> simp_all [dlt]

theorem not_dlt_none_right {a : Option Nat} (h : ¬ dlt a none = true) : a = none := by
  rcases a <;> simp_all [dlt]

theorem dlt_trans {a b c : Option Nat} (h1 : dlt a b = true) (h2 : dlt b c = true) :
    dlt a c = true := by
  rcases a <;> rcases b <;> rcases c <;> simp_all [dlt] <;> omega

theorem dlt_of_dlt_of_nlt {a b c : Option Nat} (h1 : dlt a b = true)
    (h2 : ¬ dlt c b = true) : dlt a c = true := by
  rcases a <;> rcases b <;> rcases c <;> simp_all [dlt] <;> omega

theorem nlt_trans {a b c : Option Nat} (h1 : ¬ dlt b a = true)
    (h2 : ¬ dlt c b = true) : ¬ dlt c a = true := by
  rcases a <;> rcases b <;> rcases c <;> simp_all [dlt] <;> omega

theorem dadd_nlt (a : Option Nat) (w : Nat) : ¬ dlt (dadd a w) a = true := by
  rcases a <;> simp [dlt, dadd]

theorem nlt_some_zero (a : Option Nat) : ¬ dlt a (some 0) = true := by
  rcases a <;> simp [dlt]

theorem ne_none_of_nlt {a b : Option Nat} (h1 : ¬ dlt a b = true) (h2 : a ≠ none) :
    b ≠ none := by
  rcases a <;> rcases b <;> simp_all [dlt]

/-- A walk: a chain of streets joined head-to-tail, starting at the tail
of its first street and ending at the head of its last street. -/
inductive Walk (sd : List StreetD) : List Nat → Nat → Nat → Prop
  | nil (n : Nat) : Walk sd [] n n
  | cons {l : List Nat} {b : Nat} (sid : Nat) :
      Walk sd l (sd.getD sid ⟨0, 0, 0⟩).head b →
      Walk sd (sid :: l) (sd.getD sid ⟨0, 0, 0⟩).tail b

/-- A directed path of the network's streets leads from `a` to `b`. -/
inductive Reaches (s : S) : Nat → Nat → Prop
  | refl (n : Nat) : Reaches s n n
  | step {a b c : Nat} (sid : Nat) : Reaches s a b → sid ∈ s.streets →
      (s.sdata.getD sid ⟨0, 0, 0⟩).tail = b →
      (s.sdata.getD sid ⟨0, 0, 0⟩).head = c → Reaches s a c

/-- The graph well-formedness facts that hold for every network the
program builds (`Street.__init__` registers the street in the adjacency
lists of its endpoints, constructors register every node): node list
without duplicates, adjacency lists consistent with the street collection
and the street endpoints, endpoints inside the node collection. -/
structure GraphWF (s : S) : Prop where
  nodup : s.inters.Nodup
  tails : ∀ n ∈ s.inters, ∀ sid ∈ s.outs.getD n [],
    (s.sdata.getD sid ⟨0, 0, 0⟩).tail = n
  heads : ∀ n ∈ s.inters, ∀ sid ∈ s.outs.getD n [],
    (s.sdata.getD sid ⟨0, 0, 0⟩).head ∈ s.inters
  inStreets : ∀ n ∈ s.inters, ∀ sid ∈ s.outs.getD n [], sid ∈ s.streets
  outStreets : ∀ sid ∈ s.streets, (s.sdata.getD sid ⟨0, 0, 0⟩).tail ∈ s.inters ∧
    sid ∈ s.outs.getD (s.sdata.getD sid ⟨0, 0, 0⟩).tail []

theorem dlt_of_nlt_of_dlt {a b c : Option Nat} (h1 : ¬ dlt a b = true)
    (h2 : dlt a c = true) : dlt b c = true := by
  rcases a <;> rcases b <;> rcases c <;> simp_all [dlt] <;> omega

theorem selectMin_spec (dist : Nat → Option Nat) (l : List Nat) (hl : l ≠ []) :
    ∃ m, selectMin dist l = some m ∧ m ∈ l ∧
      ∀ v ∈ l, ¬ dlt (dist v) (dist m) = true := by
  rcases l with _ | ⟨n, ns⟩
  · exact absurd rfl hl
  clear hl
  suffices h : ∀ (ns : List Nat) (best : Nat),
      (ns.foldl (fun b m => if dlt (dist m) (dist b) then m else b) best) ∈ best :: ns ∧
      ∀ v ∈ best :: ns,
        ¬ dlt (dist v)
          (dist (ns.foldl (fun b m => if dlt (dist m) (dist b) then m else b) best))
            = true by
    exact ⟨_, rfl, (h ns n).1, (h ns n).2⟩
  intro ns
  induction ns with
  | nil =>
    intro best
    refine ⟨List.mem_singleton_self best, ?_⟩
    intro v hv
    rw [List.mem_singleton.mp hv]
    exact dlt_irrefl _
  | cons m ns ih =>
    intro best
    rw [List.foldl_cons]
    by_cases hc : dlt (dist m) (dist best) = true
    · rw [if_pos hc]
      refine ⟨List.mem_cons_of_mem best (ih m).1, ?_⟩
      intro v hv
      rcases List.mem_cons.mp hv with hveq | hv'
      · rw [hveq]
        intro hcon
        exact (ih m).2 m (List.mem_cons_self m ns) (dlt_trans hc hcon)
      · exact (ih m).2 v hv'
    · rw [if_neg hc]
      have hmem : (ns.foldl (fun b m => if dlt (dist m) (dist b) then m else b) best)
          ∈ best :: m :: ns := by
        rcases List.mem_cons.mp (ih best).1 with h | h
        · rw [h]
          exact List.mem_cons_self best (m :: ns)
        · exact List.mem_cons_of_mem best (List.mem_cons_of_mem m h)
      refine ⟨hmem, ?_⟩
      intro v hv
      rcases List.mem_cons.mp hv with hveq | hv'
      · rw [hveq]
        exact (ih best).2 best (List.mem_cons_self best ns)
      rcases List.mem_cons.mp hv' with hveq | hv''
      · rw [hveq]
        intro hcon
        exact (ih best).2 best (List.mem_cons_self best ns) (dlt_of_nlt_of_dlt hc hcon)
      · exact (ih best).2 v (List.mem_cons_of_mem best hv'')

theorem dlt_asymm {a b : Option Nat} (h : dlt a b = true) : ¬ dlt b a = true :=
  fun h2 => dlt_irrefl a (dlt_trans h h2)

theorem relaxStep_spec (sd : List StreetD) (m : Nat) (d p : Nat → Option Nat)
    (sid0 : Nat) :
    (relaxStep sd m (d, p) sid0).1 m = d m ∧
    (∀ n, ¬ dlt (d n) ((relaxStep sd m (d, p) sid0).1 n) = true) ∧
    (∀ n, ((relaxStep sd m (d, p) sid0).1 n = d n ∧
        (relaxStep sd m (d, p) sid0).2 n = p n) ∨
      ((sd.getD sid0 ⟨0, 0, 0⟩).head = n ∧
        (relaxStep sd m (d, p) sid0).2 n = some sid0 ∧
        (relaxStep sd m (d, p) sid0).1 n =
          dadd (d m) (sd.getD sid0 ⟨0, 0, 0⟩).weight ∧
        dlt ((relaxStep sd m (d, p) sid0).1 n) (d n) = true)) ∧
    (¬ dlt (dadd (d m) (sd.getD sid0 ⟨0, 0, 0⟩).weight)
        ((relaxStep sd m (d, p) sid0).1 (sd.getD sid0 ⟨0, 0, 0⟩).head) = true) ∧
    (∀ n, ¬ dlt (d m) (d n) = true →
      (relaxStep sd m (d, p) sid0).1 n = d n ∧
        (relaxStep sd m (d, p) sid0).2 n = p n) := by
  unfold relaxStep
  simp only []
  by_cases hcond : dlt (dadd (d m) (sd.getD sid0 ⟨0, 0, 0⟩).weight)
      (d (sd.getD sid0 ⟨0, 0, 0⟩).head) = true
  · rw [if_pos hcond]
    simp only []
    constructor
    · -- the selected node's entry is stable
      unfold upd
      by_cases hm : m = (sd.getD sid0 ⟨0, 0, 0⟩).head
      · rw [← hm] at hcond
        exact absurd hcond (dadd_nlt (d m) _)
      · rw [if_neg hm]
    constructor
    · intro n
      unfold upd
      by_cases hn : n = (sd.getD sid0 ⟨0, 0, 0⟩).head
      · rw [if_pos hn, hn]
        exact dlt_asymm hcond
      · rw [if_neg hn]
        exact dlt_irrefl _
    constructor
    · intro n
      unfold upd
      by_cases hn : n = (sd.getD sid0 ⟨0, 0, 0⟩).head
      · right
        rw [if_pos hn, if_pos hn]
        exact ⟨hn.symm, rfl, rfl, hn ▸ hcond⟩
      · left
        rw [if_neg hn, if_neg hn]
        exact ⟨rfl, rfl⟩
    constructor
    · unfold upd
      rw [if_pos rfl]
      exact dlt_irrefl _
    · intro n hm
      unfold upd
      by_cases hn : n = (sd.getD sid0 ⟨0, 0, 0⟩).head
      · rw [← hn] at hcond
        exact absurd (dlt_of_nlt_of_dlt (dadd_nlt (d m) _) hcond) hm
      · rw [if_neg hn, if_neg hn]
        exact ⟨rfl, rfl⟩
  · rw [if_neg hcond]
    refine ⟨rfl, fun n => dlt_irrefl _, fun n => Or.inl ⟨rfl, rfl⟩, hcond,
      fun n _ => ⟨rfl, rfl⟩⟩

theorem relaxAll_spec (sd : List StreetD) (m : Nat) (L : List Nat)
    (d p : Nat → Option Nat) :
    (relaxAll sd m L (d, p)).1 m = d m ∧
    (∀ n, ¬ dlt (d n) ((relaxAll sd m L (d, p)).1 n) = true) ∧
    (∀ n, ((relaxAll sd m L (d, p)).1 n = d n ∧
        (relaxAll sd m L (d, p)).2 n = p n) ∨
      (∃ sid ∈ L, (sd.getD sid ⟨0, 0, 0⟩).head = n ∧
        (relaxAll sd m L (d, p)).2 n = some sid ∧
        (relaxAll sd m L (d, p)).1 n =
          dadd (d m) (sd.getD sid ⟨0, 0, 0⟩).weight ∧
        dlt ((relaxAll sd m L (d, p)).1 n) (d n) = true)) ∧
    (∀ sid ∈ L, ¬ dlt (dadd (d m) (sd.getD sid ⟨0, 0, 0⟩).weight)
        ((relaxAll sd m L (d, p)).1 (sd.getD sid ⟨0, 0, 0⟩).head) = true) ∧
    (∀ n, ¬ dlt (d m) (d n) = true →
      (relaxAll sd m L (d, p)).1 n = d n ∧
        (relaxAll sd m L (d, p)).2 n = p n) := by
  induction L generalizing d p with
  | nil =>
    refine ⟨rfl, fun n => dlt_irrefl _, fun n => Or.inl ⟨rfl, rfl⟩,
      fun sid hsid => absurd hsid (List.not_mem_nil sid), fun n _ => ⟨rfl, rfl⟩⟩
  | cons sid0 rest ih =>
    have hfold : relaxAll sd m (sid0 :: rest) (d, p) =
        relaxAll sd m rest (relaxStep sd m (d, p) sid0) := rfl
    obtain ⟨s1, s2, s3, s4, s5⟩ := relaxStep_spec sd m d p sid0
    rcases hdp1 : relaxStep sd m (d, p) sid0 with ⟨d1, p1⟩
    rw [hdp1] at s1 s2 s3 s4 s5 hfold
    dsimp only at s1 s2 s3 s4 s5
    obtain ⟨i1, i2, i3, i4, i5⟩ := ih d1 p1
    rw [hfold]
    have hm1 : d1 m = d m := s1
    refine ⟨?_, ?_, ?_, ?_, ?_⟩
    · rw [i1, hm1]
    · intro n
      exact nlt_trans (i2 n) (s2 n)
    · intro n
      rcases i3 n with ⟨hde, hpe⟩ | ⟨sid, hsid, hhead, hp, hdv, hlt⟩
      · rcases s3 n with ⟨hde1, hpe1⟩ | ⟨hhead0, hp0, hd0, hlt0⟩
        · exact Or.inl ⟨hde.trans hde1, hpe.trans hpe1⟩
        · right
          refine ⟨sid0, List.mem_cons_self sid0 rest, hhead0, hpe.trans hp0,
            hde.trans hd0, ?_⟩
          rw [hde]
          exact hlt0
      · right
        refine ⟨sid, List.mem_cons_of_mem sid0 hsid, hhead, hp, ?_, ?_⟩
        · rw [hdv, hm1]
        · rcases s3 n with ⟨hde1, _⟩ | ⟨_, _, _, hlt0⟩
          · rw [← hde1]
            exact hlt
          · exact dlt_trans hlt hlt0
    · intro sid hsid
      rcases List.mem_cons.mp hsid with hseq | hsid'
      · rw [hseq]
        exact nlt_trans (i2 _) s4
      · have := i4 sid hsid'
        rw [hm1] at this
        exact this
    · intro n hnm
      obtain ⟨hde1, hpe1⟩ := s5 n hnm
      have hnm1 : ¬ dlt (d1 m) (d1 n) = true := by
        rw [hm1, hde1]
        exact hnm
      obtain ⟨hde2, hpe2⟩ := i5 n hnm1
      exact ⟨hde2.trans hde1, hpe2.trans hpe1⟩

/-- The invariant of the labelling loop.  `N` is the not-yet-finalized node
list, `R` the finalized (popped) nodes in pop order, `d`/`p` the distance
and predecessor dicts. -/
structure LoopInv (s : S) (src : Nat) (N R : List Nat) (d p : Nat → Option Nat) : Prop where
  nodupN : N.Nodup
  nodupR : R.Nodup
  partition : ∀ n, n ∈ s.inters ↔ (n ∈ R ∨ n ∈ N)
  disj : ∀ n ∈ R, n ∉ N
  countlen : R.length + N.length = s.inters.length
  dsrc : d src = some 0
  psrc : p src = none
  pspec : ∀ n sid, p n = some sid →
    (s.sdata.getD sid ⟨0, 0, 0⟩).head = n ∧
    (s.sdata.getD sid ⟨0, 0, 0⟩).tail ∈ R ∧
    sid ∈ s.outs.getD (s.sdata.getD sid ⟨0, 0, 0⟩).tail [] ∧
    d n ≠ none ∧ d (s.sdata.getD sid ⟨0, 0, 0⟩).tail ≠ none
  reach : ∀ n, d n ≠ none → Reaches s src n
  noneOfNoP : ∀ n, n ≠ src → p n = none → d n = none
  final : ∀ u ∈ R, ∀ v ∈ N, ¬ dlt (d v) (d u) = true
  triangle : ∀ u ∈ R, ∀ sid ∈ s.outs.getD u [],
    ¬ dlt (dadd (d u) (s.sdata.getD sid ⟨0, 0, 0⟩).weight)
        (d (s.sdata.getD sid ⟨0, 0, 0⟩).head) = true
  rank : ∀ u ∈ R, ∀ sid, p u = some sid →
    R.indexOf (s.sdata.getD sid ⟨0, 0, 0⟩).tail < R.indexOf u

theorem inv_init (s : S) (src : Nat) (nodup : s.inters.Nodup) :
    LoopInv s src s.inters []
      (fun n => if n = src then some 0 else none) (fun _ => none) := by
  refine ⟨nodup, List.nodup_nil, ?_, ?_, ?_, by simp, rfl, ?_, ?_, ?_, ?_, ?_, ?_⟩
  · intro n
    simp
  · intro n hn
    exact absurd hn (List.not_mem_nil n)
  · simp
  · intro n sid h
    exact Option.noConfusion h
  · intro n hd
    by_cases hn : n = src
    · rw [hn]
      exact Reaches.refl src
    · rw [if_neg hn] at hd
      exact absurd rfl hd
  · intro n hn _
    rw [if_neg hn]
  · intro u hu
    exact absurd hu (List.not_mem_nil u)
  · intro u hu
    exact absurd hu (List.not_mem_nil u)
  · intro u hu
    exact absurd hu (List.not_mem_nil u)

theorem dadd_ne_none {a : Option Nat} {w : Nat} (h : dadd a w ≠ none) : a ≠ none := by
  rcases a <;> simp_all [dadd]

theorem indexOf_append_left {a : Nat} {l1 : List Nat} (l2 : List Nat) (h : a ∈ l1) :
    (l1 ++ l2).indexOf a = l1.indexOf a := by
  induction l1 with
  | nil => exact absurd h (List.not_mem_nil a)
  | cons b t ih =>
    rcases List.mem_cons.mp h with hba | hat
    · rw [List.cons_append, List.indexOf_cons, List.indexOf_cons, hba]
      simp
    · rw [List.cons_append, List.indexOf_cons, List.indexOf_cons, ih hat]

theorem indexOf_append_not_mem {a : Nat} {l1 : List Nat} (l2 : List Nat) (h : a ∉ l1) :
    (l1 ++ l2).indexOf a = l1.length + l2.indexOf a := by
  induction l1 with
  | nil => simp
  | cons b t ih =>
    have hba : ¬ (b == a) = true := by
      simp only [beq_iff_eq]
      intro hba
      exact h (hba ▸ List.mem_cons_self b t)
    rw [List.cons_append, List.indexOf_cons]
    simp only [hba, cond_false]
    rw [ih (fun hat => h (List.mem_cons_of_mem b hat))]
    simp only [List.length_cons]
    omega

theorem inv_step (s : S) (wf : GraphWF s) (src : Nat) (N R : List Nat)
    (d p : Nat → Option Nat) (inv : LoopInv s src N R d p)
    (m : Nat) (hmN : m ∈ N) (hmin : ∀ v ∈ N, ¬ dlt (d v) (d m) = true) :
    LoopInv s src (N.erase m) (R ++ [m])
      (relaxAll s.sdata m (s.outs.getD m []) (d, p)).1
      (relaxAll s.sdata m (s.outs.getD m []) (d, p)).2 := by
  obtain ⟨r1, r2, r3, r4, r5⟩ := relaxAll_spec s.sdata m (s.outs.getD m []) d p
  have hmInters : m ∈ s.inters := (inv.partition m).mpr (Or.inr hmN)
  have hmR : m ∉ R := fun hmR => inv.disj m hmR hmN
  have preservedR : ∀ u ∈ R,
      (relaxAll s.sdata m (s.outs.getD m []) (d, p)).1 u = d u ∧
      (relaxAll s.sdata m (s.outs.getD m []) (d, p)).2 u = p u :=
    fun u hu => r5 u (inv.final u hu m hmN)
  have pm : (relaxAll s.sdata m (s.outs.getD m []) (d, p)).2 m = p m :=
    (r5 m (dlt_irrefl (d m))).2
  refine ⟨inv.nodupN.erase m, ?_, ?_, ?_, ?_, ?_, ?_, ?_, ?_, ?_, ?_, ?_, ?_⟩
  · -- nodupR
    rw [List.nodup_append]
    exact ⟨inv.nodupR, List.nodup_singleton m,
      fun a ha => by simp; intro haeq; rw [haeq] at ha; exact hmR ha⟩
  · -- partition
    intro n
    by_cases hnm : n = m
    · rw [hnm]
      simp [hmInters]
    · rw [List.mem_erase_of_ne hnm]
      constructor
      · intro hn
        rcases (inv.partition n).mp hn with hR | hN
        · exact Or.inl (List.mem_append_left [m] hR)
        · exact Or.inr hN
      · intro hn
        rcases hn with hR | hN
        · rcases List.mem_append.mp hR with hR' | hm'
          · exact (inv.partition n).mpr (Or.inl hR')
          · exact absurd (List.mem_singleton.mp hm') hnm
        · exact (inv.partition n).mpr (Or.inr hN)
  · -- disj
    intro u hu huN
    rcases List.mem_append.mp hu with hR | hm'
    · exact inv.disj u hR (List.mem_of_mem_erase huN)
    · rw [List.mem_singleton.mp hm'] at huN
      exact (inv.nodupN.not_mem_erase) huN
  · -- countlen
    have h1 : (N.erase m).length = N.length - 1 := List.length_erase_of_mem hmN
    have h2 : 0 < N.length := List.length_pos_of_mem hmN
    have := inv.countlen
    simp only [List.length_append, List.length_singleton, h1]
    omega
  · -- dsrc
    have := r5 src (by rw [inv.dsrc]; exact nlt_some_zero (d m))
    rw [this.1, inv.dsrc]
  · -- psrc
    have := r5 src (by rw [inv.dsrc]; exact nlt_some_zero (d m))
    rw [this.2, inv.psrc]
  · -- pspec
    intro n sid hp
    rcases r3 n with ⟨hde, hpe⟩ | ⟨sid', hsid', hhead, hp', hdv, hlt⟩
    · rw [hpe] at hp
      obtain ⟨o1, o2, o3, o4, o5⟩ := inv.pspec n sid hp
      refine ⟨o1, List.mem_append_left [m] o2, o3, ?_, ?_⟩
      · rw [hde]
        exact o4
      · rw [(preservedR _ o2).1]
        exact o5
    · rw [hp'] at hp
      injection hp with hpsid
      rw [← hpsid]
      have htail : (s.sdata.getD sid' ⟨0, 0, 0⟩).tail = m :=
        wf.tails m hmInters sid' hsid'
      have hdnn : (relaxAll s.sdata m (s.outs.getD m []) (d, p)).1 n ≠ none :=
        dlt_ne_none hlt
      have hdm : d m ≠ none := dadd_ne_none (hdv ▸ hdnn)
      refine ⟨hhead, ?_, ?_, hdnn, ?_⟩
      · rw [htail]
        exact List.mem_append_right R (List.mem_singleton_self m)
      · rw [htail]
        exact hsid'
      · rw [htail, r1]
        exact hdm
  · -- reach
    intro n hdn
    rcases r3 n with ⟨hde, _⟩ | ⟨sid', hsid', hhead, _, hdv, _⟩
    · exact inv.reach n (hde ▸ hdn)
    · have hdm : d m ≠ none := dadd_ne_none (hdv ▸ hdn)
      exact Reaches.step sid' (inv.reach m hdm)
        (wf.inStreets m hmInters sid' hsid')
        (wf.tails m hmInters sid' hsid') hhead
  · -- noneOfNoP
    intro n hn hp
    rcases r3 n with ⟨hde, hpe⟩ | ⟨sid', _, _, hp', _, _⟩
    · rw [hde]
      exact inv.noneOfNoP n hn (hpe ▸ hp)
    · rw [hp'] at hp
      exact Option.noConfusion hp
  · -- final
    intro u hu v hv
    have hvN : v ∈ N := List.mem_of_mem_erase hv
    rcases List.mem_append.mp hu with hR | hm'
    · rw [(preservedR u hR).1]
      rcases r3 v with ⟨hde, _⟩ | ⟨_, _, _, _, hdv, _⟩
      · rw [hde]
        exact inv.final u hR v hvN
      · rw [hdv]
        intro hcon
        exact inv.final u hR m hmN
          (dlt_of_nlt_of_dlt (dadd_nlt (d m) _) hcon)
    · rw [List.mem_singleton.mp hm', r1]
      rcases r3 v with ⟨hde, _⟩ | ⟨_, _, _, _, hdv, _⟩
      · rw [hde]
        exact hmin v hvN
      · rw [hdv]
        exact dadd_nlt (d m) _
  · -- triangle
    intro u hu sid hsid
    rcases List.mem_append.mp hu with hR | hm'
    · rw [(preservedR u hR).1]
      exact nlt_trans (r2 _) (inv.triangle u hR sid hsid)
    · rw [List.mem_singleton.mp hm'] at hsid ⊢
      rw [r1]
      exact r4 sid hsid
  · -- rank
    intro u hu sid hp
    rcases List.mem_append.mp hu with hR | hm'
    · rw [(preservedR u hR).2] at hp
      obtain ⟨_, htailR, _, _, _⟩ := inv.pspec u sid hp
      rw [indexOf_append_left [m] htailR, indexOf_append_left [m] hR]
      exact inv.rank u hR sid hp
    · rw [List.mem_singleton.mp hm'] at hp ⊢
      rw [pm] at hp
      obtain ⟨_, htailR, _, _, _⟩ := inv.pspec m sid hp
      rw [indexOf_append_left [m] htailR, indexOf_append_not_mem [m] hmR]
      have h1 : R.indexOf (s.sdata.getD sid ⟨0, 0, 0⟩).tail < R.length :=
        List.indexOf_lt_length.mpr htailR
      have h2 : List.indexOf m [m] = 0 := by simp
      omega

theorem spLoop_spec (s : S) (wf : GraphWF s) (src dest : Nat) :
    ∀ (fuel : Nat) (N R : List Nat) (d p : Nat → Option Nat),
      LoopInv s src N R d p → dest ∈ N → N.length < fuel →
      ∃ N' R' d' p', spLoop s.sdata s.outs dest fuel N d p = some (d', p') ∧
        LoopInv s src N' R' d' p' ∧ dest ∈ N' ∧
        (∀ v ∈ N', ¬ dlt (d' v) (d' dest) = true) := by
  intro fuel
  induction fuel with
  | zero =>
    intro N R d p _ _ h
    omega
  | succ fuel ih =>
    intro N R d p inv hdest hlen
    have hNne : N ≠ [] := fun h => by
      rw [h] at hdest
      exact List.not_mem_nil dest hdest
    obtain ⟨m, hsel, hmN, hmin⟩ := selectMin_spec d N hNne
    by_cases hmd : m = dest
    · refine ⟨N, R, d, p, ?_, inv, hdest, ?_⟩
      · simp only [spLoop, hsel, hmd, if_pos]
      · rw [← hmd]
        exact hmin
    · have inv' := inv_step s wf src N R d p inv m hmN hmin
      have hdest' : dest ∈ N.erase m :=
        (List.mem_erase_of_ne (fun h => hmd h.symm)).mpr hdest
      have hlen' : (N.erase m).length < fuel := by
        rw [List.length_erase_of_mem hmN]
        have := List.length_pos_of_mem hmN
        omega
      obtain ⟨N', R', d', p', hrun, hinv', hdest'', hmin'⟩ :=
        ih (N.erase m) (R ++ [m])
          (relaxAll s.sdata m (s.outs.getD m []) (d, p)).1
          (relaxAll s.sdata m (s.outs.getD m []) (d, p)).2 inv' hdest' hlen'
      refine ⟨N', R', d', p', ?_, hinv', hdest'', hmin'⟩
      simp only [spLoop, hsel, hmd, if_false]
      exact hrun

theorem Walk.append_one {sd : List StreetD} {l : List Nat} {a : Nat} (sid : Nat)
    (hw : Walk sd l a (sd.getD sid ⟨0, 0, 0⟩).tail) :
    Walk sd (l ++ [sid]) a (sd.getD sid ⟨0, 0, 0⟩).head := by
  generalize hb : (sd.getD sid ⟨0, 0, 0⟩).tail = b at hw
  induction hw with
  | nil n =>
    rw [← hb]
    exact Walk.cons sid (Walk.nil _)
  | cons sid' hw' ih =>
    exact Walk.cons sid' (ih hb)

theorem backGo_spec (s : S) (src : Nat) (N' R' : List Nat)
    (d' p' : Nat → Option Nat) (inv : LoopInv s src N' R' d' p') (k : Nat) :
    ∀ n acc fuel, k < fuel →
      (p' n = none ∨ ∃ sid, p' n = some sid ∧
        R'.indexOf ((s.sdata.getD sid ⟨0, 0, 0⟩).tail) < k) →
      ∃ chain z, backGo s.sdata p' fuel n acc = some (chain ++ acc) ∧
        Walk s.sdata chain z n ∧ p' z = none ∧ (chain ≠ [] → d' z ≠ none) := by
  induction k using Nat.strong_induction_on with
  | _ k ih =>
    intro n acc fuel hkf hn
    obtain ⟨fuel, rfl⟩ : ∃ f, fuel = f + 1 := ⟨fuel - 1, by omega⟩
    rcases hn with hnone | ⟨sid, hsid, hbound⟩
    · refine ⟨[], n, ?_, Walk.nil n, hnone, fun h => absurd rfl h⟩
      simp [backGo, hnone]
    · obtain ⟨hhead, htailR, houts, hdn, hdtail⟩ := inv.pspec n sid hsid
      have hnext : p' (s.sdata.getD sid ⟨0, 0, 0⟩).tail = none ∨
          ∃ sid', p' (s.sdata.getD sid ⟨0, 0, 0⟩).tail = some sid' ∧
            R'.indexOf ((s.sdata.getD sid' ⟨0, 0, 0⟩).tail) <
              R'.indexOf (s.sdata.getD sid ⟨0, 0, 0⟩).tail := by
        rcases hpn' : p' (s.sdata.getD sid ⟨0, 0, 0⟩).tail with _ | sid'
        · exact Or.inl rfl
        · exact Or.inr ⟨sid', rfl,
            inv.rank (s.sdata.getD sid ⟨0, 0, 0⟩).tail htailR sid' hpn'⟩
      have hkf' : R'.indexOf (s.sdata.getD sid ⟨0, 0, 0⟩).tail < fuel := by omega
      obtain ⟨chain', z, hrun, hwalk, hz, hdz⟩ :=
        ih (R'.indexOf (s.sdata.getD sid ⟨0, 0, 0⟩).tail) hbound
          (s.sdata.getD sid ⟨0, 0, 0⟩).tail (sid :: acc) fuel hkf' hnext
      refine ⟨chain' ++ [sid], z, ?_, ?_, hz, ?_⟩
      · have : backGo s.sdata p' (fuel + 1) n acc =
            backGo s.sdata p' fuel (s.sdata.getD sid ⟨0, 0, 0⟩).tail (sid :: acc) := by
          simp [backGo, hsid]
        rw [this, hrun, List.append_assoc]
        rfl
      · rw [← hhead]
        exact Walk.append_one sid hwalk
      · intro _
        rcases hchain' : chain' with _ | ⟨c0, crest⟩
        · rw [hchain'] at hwalk
          cases hwalk
          exact hdtail
        · exact hdz (by rw [hchain']; exact List.cons_ne_nil c0 crest)

/-- C5: for any well-formed network and nodes of the network,
`shortest_path` raises DisconnectedPathError exactly when the source
equals the destination or no directed path of the network's streets leads
from source to destination; otherwise it returns a non-empty street chain
whose first tail is the source, whose last head is the destination, and
whose consecutive streets are joined head-to-tail (the `Walk` predicate). -/
theorem shortest_path_connectivity (s : S) (wf : GraphWF s) (src dest : Nat)
    (hsrc : src ∈ s.inters) (hdest : dest ∈ s.inters) :
    (shortest_path s src dest = .error .disconnectedPath ↔
      (src = dest ∨ ¬ Reaches s src dest)) ∧
    (∀ path, shortest_path s src dest = .ok path →
      path ≠ [] ∧ Walk s.sdata path src dest) := by
  obtain ⟨N', R', d', p', hrun, inv', hdestN', hmin⟩ :=
    spLoop_spec s wf src dest (s.inters.length + 1) s.inters []
      (fun n => if n = src then some 0 else none) (fun _ => none)
      (inv_init s src wf.nodup) hdest (Nat.lt_succ_self _)
  have hbhyp : p' dest = none ∨ ∃ sid, p' dest = some sid ∧
      R'.indexOf ((s.sdata.getD sid ⟨0, 0, 0⟩).tail) < R'.length := by
    rcases hpd : p' dest with _ | sid
    · exact Or.inl rfl
    · obtain ⟨_, htailR, _, _, _⟩ := inv'.pspec dest sid hpd
      exact Or.inr ⟨sid, rfl, List.indexOf_lt_length.mpr htailR⟩
  have hklt : R'.length < s.inters.length + 1 := by
    have := inv'.countlen
    omega
  obtain ⟨chain, z, hbrun, hwalk, hz, hdz⟩ :=
    backGo_spec s src N' R' d' p' inv' R'.length dest [] (s.inters.length + 1)
      hklt hbhyp
  rw [List.append_nil] at hbrun
  have hsp : shortest_path s src dest =
      (if chain = [] then .error .disconnectedPath else .ok chain) := by
    unfold shortest_path
    simp only []
    rw [hrun]
    simp only []
    rw [hbrun]
  have hchain_iff : chain = [] ↔ p' dest = none := by
    constructor
    · intro hc
      rw [hc] at hwalk
      cases hwalk
      exact hz
    · intro hpd
      by_contra hc
      rcases hchain : chain with _ | ⟨c0, crest⟩
      · exact hc hchain
      · rw [hchain] at hwalk
        have : backGo s.sdata p' (s.inters.length + 1) dest [] = some [] := by
          obtain ⟨f, hf⟩ : ∃ f, s.inters.length + 1 = f + 1 := ⟨s.inters.length, rfl⟩
          rw [hf]
          simp [backGo, hpd]
        rw [hbrun, hchain] at this
        exact List.noConfusion (Option.some.inj this)
  have hzsrc : chain ≠ [] → z = src := by
    intro hc
    by_contra hzs
    exact hdz hc (inv'.noneOfNoP z hzs hz)
  have hreachfin : dest ≠ src → Reaches s src dest → d' dest ≠ none := by
    intro hne hr hddest
    have hallnone : ∀ v ∈ N', d' v = none := by
      intro v hv
      have := hmin v hv
      rw [hddest] at this
      exact not_dlt_none_right this
    have hfin : ∀ c, Reaches s src c → d' c ≠ none := by
      intro c hrc
      induction hrc with
      | refl =>
        rw [inv'.dsrc]
        exact fun h => Option.noConfusion h
      | step sid hr' hstr htail hhead ihc =>
        rename_i b c'
        have hbInters : b ∈ s.inters := htail ▸ (wf.outStreets sid hstr).1
        have hbR : b ∈ R' := by
          rcases (inv'.partition b).mp hbInters with hR | hN
          · exact hR
          · exact absurd (hallnone b hN) ihc
        have houts : sid ∈ s.outs.getD b [] := htail ▸ (wf.outStreets sid hstr).2
        have htri := inv'.triangle b hbR sid houts
        rw [hhead] at htri
        have halt : dadd (d' b) (s.sdata.getD sid ⟨0, 0, 0⟩).weight ≠ none := by
          rcases hdb : d' b with _ | x
          · exact absurd hdb ihc
          · simp [dadd]
        exact ne_none_of_nlt htri halt
    exact hfin dest hr hddest
  constructor
  · rw [hsp]
    constructor
    · intro herr
      have hc : chain = [] := by
        by_contra hc
        rw [if_neg hc] at herr
        exact Except.noConfusion herr
      have hpd : p' dest = none := hchain_iff.mp hc
      by_cases hsd : src = dest
      · exact Or.inl hsd
      · right
        intro hr
        have hdd : d' dest = none :=
          inv'.noneOfNoP dest (fun h => hsd h.symm) hpd
        exact hreachfin (fun h => hsd h.symm) hr hdd
    · intro hcond
      have hpd : p' dest = none := by
        rcases hcond with hsd | hnr
        · rw [← hsd]
          exact inv'.psrc
        · rcases hpd : p' dest with _ | sid
          · rfl
          · obtain ⟨_, _, _, hdne, _⟩ := inv'.pspec dest sid hpd
            exact absurd (inv'.reach dest hdne) hnr
      rw [if_pos (hchain_iff.mpr hpd)]
  · intro path hok
    rw [hsp] at hok
    have hc : chain ≠ [] := by
      intro hc
      rw [if_pos hc] at hok
      exact Except.noConfusion hok
    rw [if_neg hc] at hok
    have hpc : path = chain := (Except.ok.inj hok).symm
    rw [hpc]
    refine ⟨hc, ?_⟩
    rw [← hzsrc hc]
    exact hwalk

theorem shortest_path_connectivity_witness :
    shortest_path dijkstraNet 0 0 = .error .disconnectedPath :=
  (shortest_path_connectivity dijkstraNet
      ⟨by decide, by decide, by decide, by decide, by decide⟩
      0 0 (by decide) (by decide)).1.mpr (Or.inl rfl)
